import Mathlib

/-!
Verification of the feedback-history store, summarizer, prompt builder,
score extractor and evaluation pipeline of `main.py`.

The history store persists a JSON array via the Python standard library
(`json.dump(history, f, ensure_ascii=False, indent=4)` / `json.load(f)`),
so a faithful model of that codec is developed first: `JVal` is the JSON
value produced or consumed by the program, `serVal` mirrors the writer
(indent = 4, key separator `: `, item separator `,`, non-ASCII characters
kept verbatim, control characters escaped) and `parseF` mirrors the strict
reader (whitespace = space, tab, newline, carriage return; raw control
characters inside strings rejected; leading zeros rejected).

Model boundaries, noted where relevant: numbers are carried by their decimal
digit strings (the program only ever writes scores such as `8.0`, whose
`repr` round-trips exactly); exponent notation, `NaN`/`Infinity` and lone
surrogate escapes are never produced by the writer and are not modelled by
the reader; file contents are modelled as already-decoded text.
-/

/-- The opening curly bracket character. -/
def lbrace : Char := Char.ofNat 123

/-- The closing curly bracket character. -/
def rbrace : Char := Char.ofNat 125

/-- A JSON value as handled by `json.dump` / `json.load` for this program.
Numbers are represented by sign, integer digits and fractional digits
(empty fractional digits = a Python `int`, nonempty = a `float`). -/
inductive JVal where
  | jstr (s : String)
  | jnum (neg : Bool) (ip : List Char) (fp : List Char)
  | jbool (b : Bool)
  | jnull
  | jarr (items : List JVal)
  | jobj (fields : List (String × JVal))

/-- Lowercase hexadecimal digit, as produced by Python `'\\u%04x' % i`. -/
def hexDigitChar (n : Nat) : Char :=
  if n < 10 then Char.ofNat (48 + n) else Char.ofNat (87 + n)

/-- How `json.dump` with `ensure_ascii=False` writes one character of a string:
quote, backslash and the control characters below 0x20 are escaped (with the
short forms for backspace, tab, newline, formfeed, carriage return), every
other character is written verbatim. -/
def escChar (c : Char) : List Char :=
  if c = '"' then ['\\', '"']
  else if c = '\\' then ['\\', '\\']
  else if c = '\n' then ['\\', 'n']
  else if c = '\r' then ['\\', 'r']
  else if c = '\t' then ['\\', 't']
  else if c = Char.ofNat 8 then ['\\', 'b']
  else if c = Char.ofNat 12 then ['\\', 'f']
  else if c.toNat < 32 then
    ['\\', 'u', '0', '0', hexDigitChar (c.toNat / 16), hexDigitChar (c.toNat % 16)]
  else [c]

/-- A serialized JSON string literal: quote, escaped characters, quote. -/
def escString (s : String) : List Char :=
  '"' :: ((s.data.map escChar).flatten ++ ['"'])

/-- The newline-plus-indentation block `json.dump` emits with `indent=4`. -/
def nlIndent (lvl : Nat) : List Char :=
  '\n' :: List.replicate (4 * lvl) ' '

/-- Serialized number: optional minus sign, integer digits, optional
dot and fractional digits. -/
def serNum (neg : Bool) (ip fp : List Char) : List Char :=
  (if neg then ['-'] else []) ++ ip ++ (if fp = [] then [] else '.' :: fp)

mutual

/-- `json.dump(v, ensure_ascii=False, indent=4)` at indentation level `lvl`,
as a character list. Empty containers print without inner whitespace; a
nonempty container opens, indents each item one level deeper, separates items
with a comma plus newline-indent, then closes at the current level. -/
def serVal : Nat → JVal → List Char
  | _, .jstr s => escString s
  | _, .jnum neg ip fp => serNum neg ip fp
  | _, .jbool true => ['t', 'r', 'u', 'e']
  | _, .jbool false => ['f', 'a', 'l', 's', 'e']
  | _, .jnull => ['n', 'u', 'l', 'l']
  | _, .jarr [] => ['[', ']']
  | lvl, .jarr (x :: xs) =>
      '[' :: (nlIndent (lvl + 1) ++ serItems (lvl + 1) (x :: xs) ++ nlIndent lvl ++ [']'])
  | _, .jobj [] => [lbrace, rbrace]
  | lvl, .jobj (f :: fs) =>
      lbrace :: (nlIndent (lvl + 1) ++ serFields (lvl + 1) (f :: fs) ++ nlIndent lvl ++ [rbrace])

/-- Array items, joined by `,` plus newline-indent. -/
def serItems : Nat → List JVal → List Char
  | _, [] => []
  | lvl, [x] => serVal lvl x
  | lvl, x :: y :: xs =>
      serVal lvl x ++ ',' :: (nlIndent lvl ++ serItems lvl (y :: xs))

/-- Object members `"key": value`, joined by `,` plus newline-indent. -/
def serFields : Nat → List (String × JVal) → List Char
  | _, [] => []
  | lvl, [(k, v)] => escString k ++ ':' :: ' ' :: serVal lvl v
  | lvl, (k, v) :: g :: fs =>
      escString k ++ ':' :: ' ' :: serVal lvl v ++ ',' :: (nlIndent lvl ++ serFields lvl (g :: fs))

end

/-- The full document text written by `json.dump(v, f, ensure_ascii=False, indent=4)`. -/
def jsonDump (v : JVal) : String := String.mk (serVal 0 v)

/-- All-distinct key list, mirroring that a Python dict cannot repeat keys. -/
def distinctKeys : List String → Bool
  | [] => true
  | k :: ks => (!ks.contains k) && distinctKeys ks

/-- Well-formed number digits: a nonempty all-digit integer part without a
leading zero (except the single digit `0` itself) and all-digit fractional
part. This is the canonical textual form in which Python serializes the
ints and simple decimal floats this program handles. -/
def noLeadZero : List Char → Bool
  | c :: r => if c = '0' then r.isEmpty else true
  | [] => true

def wfNum (ip fp : List Char) : Bool :=
  (!ip.isEmpty) && ip.all Char.isDigit && fp.all Char.isDigit && noLeadZero ip

mutual

/-- Well-formed JSON value: numbers carry canonical digits and objects,
like Python dicts, have pairwise distinct keys. -/
def wfJ : JVal → Bool
  | .jstr _ => true
  | .jnum _ ip fp => wfNum ip fp
  | .jbool _ => true
  | .jnull => true
  | .jarr xs => wfArr xs
  | .jobj fs => wfFields fs && distinctKeys (fs.map Prod.fst)

/-- All array items well-formed. -/
def wfArr : List JVal → Bool
  | [] => true
  | x :: xs => wfJ x && wfArr xs

/-- All member values well-formed. -/
def wfFields : List (String × JVal) → Bool
  | [] => true
  | (_, v) :: fs => wfJ v && wfFields fs

end

mutual

/-- Enough parser fuel for a value (about one unit per node and per level). -/
def pfuel : JVal → Nat
  | .jarr xs => 1 + pfuelArr xs
  | .jobj fs => 1 + pfuelFields fs
  | _ => 1

/-- Enough parser fuel for an item list. -/
def pfuelArr : List JVal → Nat
  | [] => 1
  | x :: xs => 1 + Nat.max (pfuel x) (pfuelArr xs)

/-- Enough parser fuel for a member list. -/
def pfuelFields : List (String × JVal) → Nat
  | [] => 1
  | (_, v) :: fs => 1 + Nat.max (pfuel v) (pfuelFields fs)

end

/-- JSON whitespace accepted by `json.load` between tokens. -/
def pyWs (c : Char) : Bool := c == ' ' || c == '\t' || c == '\n' || c == '\r'

/-- Drop leading JSON whitespace. -/
def skipWs : List Char → List Char
  | c :: cs => if pyWs c then skipWs cs else c :: cs
  | [] => []

/-- Value of one hexadecimal digit, either case. -/
def hexVal (c : Char) : Option Nat :=
  if '0' ≤ c ∧ c ≤ '9' then some (c.toNat - 48)
  else if 'a' ≤ c ∧ c ≤ 'f' then some (c.toNat - 87)
  else if 'A' ≤ c ∧ c ≤ 'F' then some (c.toNat - 55)
  else none

/-- Value of a four-digit hexadecimal escape payload. -/
def hex4 (a b c d : Char) : Option Nat :=
  match hexVal a, hexVal b, hexVal c, hexVal d with
  | some va, some vb, some vc, some vd => some (((va * 16 + vb) * 16 + vc) * 16 + vd)
  | _, _, _, _ => none

/-- The single-character escapes `json.load` accepts after a backslash
(besides `u`): the strict JSON table. -/
def pyUnescape (e : Char) : Option Char :=
  if e = '"' then some '"'
  else if e = '\\' then some '\\'
  else if e = '/' then some '/'
  else if e = 'b' then some (Char.ofNat 8)
  else if e = 'f' then some (Char.ofNat 12)
  else if e = 'n' then some '\n'
  else if e = 'r' then some '\r'
  else if e = 't' then some '\t'
  else none

/-- Decode one escape sequence (the input starts right after the backslash):
either `uXXXX` (with surrogate escapes paired; a lone surrogate is a Python
`str` oddity not representable here and not modelled) or one entry of the
strict escape table. Returns the decoded character and the remainder. -/
def unescapeStep : List Char → Option (Char × List Char)
  | 'u' :: a :: b :: c2 :: d :: rest =>
    (match hex4 a b c2 d with
     | none => none
     | some n =>
       if n < 55296 ∨ 57344 ≤ n then some (Char.ofNat n, rest)
       else if n < 56320 then
         match rest with
         | '\\' :: 'u' :: a2 :: b2 :: c3 :: d2 :: rest2 =>
           (match hex4 a2 b2 c3 d2 with
            | some m =>
              if 56320 ≤ m ∧ m < 57344 then
                some (Char.ofNat (65536 + (n - 55296) * 1024 + (m - 56320)), rest2)
              else none
            | none => none)
         | _ => none
       else none)
  | e :: rest =>
    (match pyUnescape e with
     | some ch => some (ch, rest)
     | none => none)
  | [] => none

/-- String-literal body parser of `json.load` (strict mode), entered after the
opening quote: ends at an unescaped quote, decodes escapes via `unescapeStep`,
and rejects raw control characters. The fuel only makes the recursion
structural; one unit is spent per decoded character, so the callers' fuel of
input length plus one can never run out. -/
def parseStringBody : Nat → List Char → Option (List Char × List Char)
  | 0, _ => none
  | _ + 1, [] => none
  | fuel + 1, c :: cs =>
    if c = '"' then some ([], cs)
    else if c = '\\' then
      match unescapeStep cs with
      | some (ch, rest) =>
        (match parseStringBody fuel rest with
         | some (l, r) => some (ch :: l, r)
         | none => none)
      | none => none
    else if c.toNat < 32 then none
    else
      match parseStringBody fuel cs with
      | some (l, r) => some (c :: l, r)
      | none => none

/-- Maximal digit run at the head of the input, plus the remainder. -/
def takeDigits : List Char → List Char × List Char
  | c :: cs =>
      if c.isDigit then
        let p := takeDigits cs
        (c :: p.1, p.2)
      else ([], c :: cs)
  | [] => ([], [])

/-- Integer part of the number grammar of `json.load`: a lone `0`, or a
maximal digit run not starting with `0` (matched here as a maximal run; a
leading-zero run makes the overall document ill-formed either way because
the stray digits cannot follow a complete number). -/
def intPart : List Char → List Char × List Char
  | c :: r => if c = '0' then (['0'], r) else takeDigits (c :: r)
  | [] => ([], [])

/-- Optional fractional part `.[0-9]+`; a dot not followed by a digit is not
consumed (the frac group of the number pattern simply does not match). -/
def fracPart : List Char → List Char × List Char
  | c :: r =>
    if c = '.' then
      (let q := takeDigits r
       if q.1.isEmpty then ([], c :: r) else q)
    else ([], c :: r)
  | [] => ([], [])

/-- Number parser of `json.load`: integer part `0 | [1-9][0-9]*`, optional
fraction `.[0-9]+`. Exponent forms are never written by this program and are
not modelled (rejected here). Returns integer digits, fractional digits and
the remainder. -/
def headIsExp : List Char → Bool
  | c :: _ => c == 'e' || c == 'E'
  | [] => false

def parseNumTail (s : List Char) : Option ((List Char × List Char) × List Char) :=
  let p1 := intPart s
  if p1.1.isEmpty then none
  else
    let p2 := fracPart p1.2
    if headIsExp p2.2 then none else some ((p1.1, p2.1), p2.2)

/-- Parser mode: a single value, the items of a nonempty array, or the
members of a nonempty object. -/
inductive PMode where
  | value : PMode
  | items : PMode
  | fields : PMode

/-- Parser result corresponding to each mode. -/
inductive POut where
  | oval (v : JVal)
  | oitems (xs : List JVal)
  | ofields (fs : List (String × JVal))

/-- The recursive scanner of `json.load` as one fueled function (fuel makes
the recursion structural; `jsonLoadTop` supplies enough fuel for any input).
`value` expects a value at the head of the input with leading whitespace
already consumed; `items` and `fields` parse one-or-more comma-separated
array items or object members, consuming the closing bracket. -/
def parseF : Nat → PMode → List Char → Option (POut × List Char)
  | 0, _, _ => none
  | fuel + 1, .value, s =>
    match s with
    | [] => none
    | c :: cs =>
      if c = '"' then
        match parseStringBody (cs.length + 1) cs with
        | some (l, rest) => some (.oval (.jstr (String.mk l)), rest)
        | none => none
      else if c = '[' then
        match skipWs cs with
        | ']' :: rest => some (.oval (.jarr []), rest)
        | r =>
          match parseF fuel .items r with
          | some (.oitems xs, rest) => some (.oval (.jarr xs), rest)
          | _ => none
      else if c = lbrace then
        match skipWs cs with
        | [] => none
        | d :: r =>
          if d = rbrace then some (.oval (.jobj []), r)
          else
            match parseF fuel .fields (d :: r) with
            | some (.ofields fs, rest) => some (.oval (.jobj fs), rest)
            | _ => none
      else if c = 't' then
        match cs with
        | 'r' :: 'u' :: 'e' :: rest => some (.oval (.jbool true), rest)
        | _ => none
      else if c = 'f' then
        match cs with
        | 'a' :: 'l' :: 's' :: 'e' :: rest => some (.oval (.jbool false), rest)
        | _ => none
      else if c = 'n' then
        match cs with
        | 'u' :: 'l' :: 'l' :: rest => some (.oval .jnull, rest)
        | _ => none
      else if c = '-' then
        match parseNumTail cs with
        | some ((ip, fp), rest) => some (.oval (.jnum true ip fp), rest)
        | none => none
      else if c.isDigit then
        match parseNumTail (c :: cs) with
        | some ((ip, fp), rest) => some (.oval (.jnum false ip fp), rest)
        | none => none
      else none
  | fuel + 1, .items, s =>
    match parseF fuel .value s with
    | some (.oval v, r) =>
      (match skipWs r with
       | ']' :: r2 => some (.oitems [v], r2)
       | ',' :: r2 =>
         (match parseF fuel .items (skipWs r2) with
          | some (.oitems vs, r3) => some (.oitems (v :: vs), r3)
          | _ => none)
       | _ => none)
    | _ => none
  | fuel + 1, .fields, s =>
    match s with
    | [] => none
    | c :: cs =>
      if c = '"' then
        match parseStringBody (cs.length + 1) cs with
        | some (k, r1) =>
          (match skipWs r1 with
           | ':' :: r2 =>
             (match parseF fuel .value (skipWs r2) with
              | some (.oval v, r3) =>
                (match skipWs r3 with
                 | d :: r4 =>
                   if d = rbrace then some (.ofields [(String.mk k, v)], r4)
                   else if d = ',' then
                     match parseF fuel .fields (skipWs r4) with
                     | some (.ofields fs, r5) => some (.ofields ((String.mk k, v) :: fs), r5)
                     | _ => none
                   else none
                 | [] => none)
              | _ => none)
           | _ => none)
        | none => none
      else none

/-- `json.load` on a whole document: skip surrounding whitespace, parse one
value, and reject trailing data. `none` models `json.JSONDecodeError`. -/
def jsonLoadTop (s : String) : Option JVal :=
  let r := skipWs s.data
  match parseF (r.length + 1) .value r with
  | some (.oval v, rest) => if (skipWs rest).isEmpty then some v else none
  | _ => none

/-- A remainder that cannot extend a serialized number: empty, or headed by a
character that is neither a digit nor dot nor an exponent letter. Every
context in which the writer places a number (before a comma, a newline, a
closing bracket, or the end of the document) qualifies. -/
def sepOK : List Char → Bool
  | [] => true
  | c :: _ => !(c.isDigit || c == '.' || c == 'e' || c == 'E')

theorem skipWs_cons_notWs {c : Char} (s : List Char) (h : pyWs c = false) :
    skipWs (c :: s) = c :: s := by
  simp [skipWs, h]

theorem skipWs_replicate_space (n : Nat) (s : List Char) :
    skipWs (List.replicate n ' ' ++ s) = skipWs s := by
  induction n with
  | zero => simp
  | succ k ih => simpa [List.replicate_succ, skipWs, pyWs] using ih

theorem skipWs_nlIndent (l : Nat) (s : List Char) :
    skipWs (nlIndent l ++ s) = skipWs s := by
  simp [nlIndent, skipWs, pyWs, skipWs_replicate_space]

theorem digit_not_ws {c : Char} (h : c.isDigit = true) : pyWs c = false := by
  by_contra hne
  have hw : pyWs c = true := by
    cases hb : pyWs c
    · exact absurd hb hne
    · rfl
  simp only [pyWs, Bool.or_eq_true, beq_iff_eq] at hw
  rcases hw with ((rfl | rfl) | rfl) | rfl <;> simp_all [Char.isDigit]

theorem digit_ge {c : Char} (h : c.isDigit = true) : 48 ≤ c.toNat ∧ c.toNat ≤ 57 := by
  simp only [Char.isDigit, decide_eq_true_eq, Bool.and_eq_true] at h
  exact ⟨h.1, h.2⟩

theorem digit_ne {c : Char} (h : c.isDigit = true) :
    c ≠ '"' ∧ c ≠ '\\' ∧ c ≠ '[' ∧ c ≠ lbrace ∧ c ≠ 't' ∧ c ≠ 'f' ∧ c ≠ 'n' ∧
      c ≠ '-' ∧ c ≠ ']' ∧ c ≠ rbrace ∧ c ≠ ',' ∧ c ≠ ':' ∧ c ≠ '.' := by
  refine ⟨?_, ?_, ?_, ?_, ?_, ?_, ?_, ?_, ?_, ?_, ?_, ?_, ?_⟩ <;>
    (intro he; rw [he] at h; exact absurd h (by decide))

theorem hexVal_hexDigitChar (n : Nat) (h : n < 16) : hexVal (hexDigitChar n) = some n := by
  interval_cases n <;> decide

theorem hex4_encode (m : Nat) (h : m < 32) :
    hex4 '0' '0' (hexDigitChar (m / 16)) (hexDigitChar (m % 16)) = some m := by
  have h1 : m / 16 < 16 := by omega
  have h2 : m % 16 < 16 := by omega
  simp only [hex4, hexVal_hexDigitChar _ h1, hexVal_hexDigitChar _ h2]
  have : hexVal '0' = some 0 := by decide
  simp only [this]
  congr 1
  omega

theorem psb_escChar (fuel : Nat) (c : Char) (t : List Char) :
    parseStringBody (fuel + 1) (escChar c ++ t) =
      match parseStringBody fuel t with
      | some (l, r) => some (c :: l, r)
      | none => none := by
  by_cases h1 : c = '"'
  · subst h1; rfl
  by_cases h2 : c = '\\'
  · subst h2; rfl
  by_cases h3 : c = '\n'
  · subst h3; rfl
  by_cases h4 : c = '\r'
  · subst h4; rfl
  by_cases h5 : c = '\t'
  · subst h5; rfl
  by_cases h6 : c = Char.ofNat 8
  · subst h6; rfl
  by_cases h7 : c = Char.ofNat 12
  · subst h7; rfl
  by_cases h8 : c.toNat < 32
  · have hser : escChar c ++ t
        = '\\' :: 'u' :: '0' :: '0' :: hexDigitChar (c.toNat / 16) ::
            hexDigitChar (c.toNat % 16) :: t := by
      simp [escChar, h1, h2, h3, h4, h5, h6, h7, h8]
    rw [hser]
    have hh : hex4 '0' '0' (hexDigitChar (c.toNat / 16)) (hexDigitChar (c.toNat % 16))
        = some c.toNat := by
      have := hex4_encode c.toNat h8
      have harith : c.toNat / 16 * 16 + c.toNat % 16 = c.toNat := by omega
      simpa [harith] using this
    have hlow : c.toNat < 55296 ∨ 57344 ≤ c.toNat := Or.inl (by omega)
    simp only [parseStringBody, unescapeStep, hh, if_pos hlow, Char.ofNat_toNat]
    have hq : ('\\' = '"') = False := by simp
    simp [hq]
  · have hser : escChar c ++ t = c :: t := by
      simp [escChar, h1, h2, h3, h4, h5, h6, h7, h8]
    rw [hser]
    simp [parseStringBody, h1, h2, h8]

theorem psb_flatten (l : List Char) :
    ∀ (fuel : Nat) (rest : List Char), l.length < fuel →
      parseStringBody fuel ((l.map escChar).flatten ++ '"' :: rest) = some (l, rest) := by
  induction l with
  | nil =>
      intro fuel rest h
      obtain ⟨f, rfl⟩ : ∃ f, fuel = f + 1 := ⟨fuel - 1, by omega⟩
      simp [parseStringBody]
  | cons c cs ih =>
      intro fuel rest h
      obtain ⟨f, rfl⟩ : ∃ f, fuel = f + 1 := ⟨fuel - 1, by omega⟩
      rw [List.map_cons, List.flatten_cons, List.append_assoc, psb_escChar,
        ih f rest (by simpa using h)]

theorem escChar_length_pos (c : Char) : 1 ≤ (escChar c).length := by
  simp only [escChar]
  split_ifs <;> simp

theorem length_le_flatten_escChar (l : List Char) :
    l.length ≤ ((l.map escChar).flatten).length := by
  induction l with
  | nil => simp
  | cons c cs ih =>
      rw [List.map_cons, List.flatten_cons, List.length_append, List.length_cons]
      have := escChar_length_pos c
      omega

theorem sepOK_head {c : Char} {t : List Char} (h : sepOK (c :: t) = true) :
    c.isDigit = false ∧ c ≠ '.' ∧ c ≠ 'e' ∧ c ≠ 'E' := by
  simp only [sepOK, Bool.not_eq_true', Bool.or_eq_false_iff, beq_eq_false_iff_ne] at h
  exact ⟨h.1.1.1, h.1.1.2, h.1.2, h.2⟩

theorem takeDigits_stop {s : List Char} (h : sepOK s = true) : takeDigits s = ([], s) := by
  cases s with
  | nil => rfl
  | cons c t => simp [takeDigits, (sepOK_head h).1]

theorem takeDigits_run {tl : List Char} (ds : List Char) (htl : takeDigits tl = ([], tl))
    (hds : ds.all Char.isDigit = true) : takeDigits (ds ++ tl) = (ds, tl) := by
  induction ds with
  | nil =>
      rw [List.nil_append]
      exact htl
  | cons c t ih =>
      simp only [List.all_cons, Bool.and_eq_true] at hds
      simp [takeDigits, hds.1, ih hds.2]


theorem takeDigits_frac (fp rest : List Char) (hr : sepOK rest = true) :
    takeDigits ((if fp = [] then [] else '.' :: fp) ++ rest)
      = ([], (if fp = [] then [] else '.' :: fp) ++ rest) := by
  by_cases hfp : fp = []
  · rw [if_pos hfp, List.nil_append]
    exact takeDigits_stop hr
  · rw [if_neg hfp, List.cons_append]
    simp [takeDigits]

theorem intPart_ser (ip FR : List Char) (hne : ip.isEmpty = false)
    (hdig : ip.all Char.isDigit = true) (hlead : noLeadZero ip = true)
    (hFR : takeDigits FR = ([], FR)) :
    intPart (ip ++ FR) = (ip, FR) := by
  cases ip with
  | nil => simp at hne
  | cons d ds =>
      by_cases hd : d = '0'
      · subst hd
        have hds : ds = [] := by
          simp only [noLeadZero, if_pos] at hlead
          exact List.isEmpty_iff.mp hlead
        subst hds
        simp [intPart]
      · rw [List.cons_append, intPart, if_neg hd, ← List.cons_append]
        exact takeDigits_run (d :: ds) hFR hdig

theorem fracPart_ser (fp rest : List Char) (hdig : fp.all Char.isDigit = true)
    (hr : sepOK rest = true) :
    fracPart ((if fp = [] then [] else '.' :: fp) ++ rest) = (fp, rest) := by
  by_cases hfp : fp = []
  · subst hfp
    rw [if_pos rfl, List.nil_append]
    cases rest with
    | nil => rfl
    | cons c t =>
        have hc : c ≠ '.' := (sepOK_head hr).2.1
        simp [fracPart, hc]
  · rw [if_neg hfp, List.cons_append, fracPart, if_pos rfl]
    rw [takeDigits_run fp (takeDigits_stop hr) hdig]
    simp [hfp]

theorem sepOK_noExp {rest : List Char} (hr : sepOK rest = true) : headIsExp rest = false := by
  cases rest with
  | nil => rfl
  | cons c t =>
      obtain ⟨-, -, he, hE⟩ := sepOK_head hr
      simp [headIsExp, he, hE]

theorem wfNum_parts {ip fp : List Char} (h : wfNum ip fp = true) :
    ip.isEmpty = false ∧ ip.all Char.isDigit = true ∧ fp.all Char.isDigit = true ∧
      noLeadZero ip = true := by
  simp only [wfNum, Bool.and_eq_true, Bool.not_eq_true'] at h
  exact ⟨h.1.1.1, h.1.1.2, h.1.2, h.2⟩

theorem parseNumTail_ser (ip fp rest : List Char) (hwf : wfNum ip fp = true)
    (hr : sepOK rest = true) :
    parseNumTail (ip ++ ((if fp = [] then [] else '.' :: fp) ++ rest))
      = some ((ip, fp), rest) := by
  obtain ⟨hne, hdig, hfdig, hlead⟩ := wfNum_parts hwf
  simp only [parseNumTail,
    intPart_ser ip _ hne hdig hlead (takeDigits_frac fp rest hr), hne,
    fracPart_ser fp rest hfdig hr, sepOK_noExp hr]
  simp

theorem serNum_head (neg : Bool) (ip fp : List Char) (h : wfNum ip fp = true) :
    ∃ c t, serNum neg ip fp = c :: t ∧ (c = '-' ∨ c.isDigit = true) := by
  obtain ⟨hne, hdig, -, -⟩ := wfNum_parts h
  cases neg with
  | false =>
      cases ip with
      | nil => simp at hne
      | cons d ds =>
          refine ⟨d, ds ++ (if fp = [] then [] else '.' :: fp), by simp [serNum], Or.inr ?_⟩
          simp only [List.all_cons, Bool.and_eq_true] at hdig
          exact hdig.1
  | true =>
      exact ⟨'-', ip ++ (if fp = [] then [] else '.' :: fp), by simp [serNum], Or.inl rfl⟩

theorem serVal_head (lvl : Nat) (v : JVal) (h : wfJ v = true) :
    ∃ c t, serVal lvl v = c :: t ∧ pyWs c = false ∧ c ≠ ']' ∧ c ≠ rbrace := by
  cases v with
  | jstr s => exact ⟨'"', _, rfl, by decide, by decide, by decide⟩
  | jnum neg ip fp =>
      obtain ⟨c, t, heq, hc⟩ := serNum_head neg ip fp (by simpa [wfJ] using h)
      refine ⟨c, t, by simpa [serVal] using heq, ?_, ?_, ?_⟩
      · rcases hc with rfl | hd
        · decide
        · exact digit_not_ws hd
      · rcases hc with rfl | hd
        · decide
        · exact (digit_ne hd).2.2.2.2.2.2.2.2.1
      · rcases hc with rfl | hd
        · decide
        · exact (digit_ne hd).2.2.2.2.2.2.2.2.2.1
  | jbool b =>
      cases b <;> exact ⟨_, _, rfl, by decide, by decide, by decide⟩
  | jnull => exact ⟨'n', _, rfl, by decide, by decide, by decide⟩
  | jarr xs =>
      cases xs with
      | nil => exact ⟨'[', _, rfl, by decide, by decide, by decide⟩
      | cons x t => exact ⟨'[', _, rfl, by decide, by decide, by decide⟩
  | jobj fs =>
      cases fs with
      | nil => exact ⟨lbrace, _, rfl, by decide, by decide, by decide⟩
      | cons f t => exact ⟨lbrace, _, rfl, by decide, by decide, by decide⟩

theorem skipWs_serVal (lvl : Nat) (v : JVal) (rest : List Char) (h : wfJ v = true) :
    skipWs (serVal lvl v ++ rest) = serVal lvl v ++ rest := by
  obtain ⟨c, t, heq, hws, -, -⟩ := serVal_head lvl v h
  rw [heq, List.cons_append, skipWs_cons_notWs _ hws]

theorem serItems_two (lvl : Nat) (x y : JVal) (ys : List JVal) :
    serItems lvl (x :: y :: ys)
      = serVal lvl x ++ ',' :: (nlIndent lvl ++ serItems lvl (y :: ys)) := by
  simp [serItems]

theorem skipWs_serItems (lvl : Nat) (x : JVal) (xs : List JVal) (rest : List Char)
    (hx : wfJ x = true) :
    skipWs (serItems lvl (x :: xs) ++ rest) = serItems lvl (x :: xs) ++ rest := by
  cases xs with
  | nil => simpa [serItems] using skipWs_serVal lvl x rest hx
  | cons y ys =>
      have harr : serItems lvl (x :: y :: ys) ++ rest
          = serVal lvl x ++ ((',' :: (nlIndent lvl ++ serItems lvl (y :: ys))) ++ rest) := by
        rw [serItems_two, List.append_assoc]
      rw [harr, skipWs_serVal lvl x _ hx]

theorem serFields_head (lvl : Nat) (k : String) (v : JVal) (fs : List (String × JVal)) :
    ∃ X, serFields lvl ((k, v) :: fs) = '"' :: X := by
  cases fs with
  | nil =>
      exact ⟨((k.data.map escChar).flatten ++ ['"']) ++ ':' :: ' ' :: serVal lvl v,
        by simp [serFields, escString]⟩
  | cons g gs =>
      exact ⟨((k.data.map escChar).flatten ++ ['"']) ++
          ':' :: ' ' :: (serVal lvl v ++ ',' :: (nlIndent lvl ++ serFields lvl (g :: gs))),
        by simp [serFields, escString]⟩

theorem skipWs_serFields (lvl : Nat) (k : String) (v : JVal) (fs : List (String × JVal))
    (rest : List Char) :
    skipWs (serFields lvl ((k, v) :: fs) ++ rest) = serFields lvl ((k, v) :: fs) ++ rest := by
  obtain ⟨X, hX⟩ := serFields_head lvl k v fs
  rw [hX, List.cons_append, skipWs_cons_notWs _ (by decide)]

theorem pfuelArr_nil : pfuelArr [] = 1 := by simp [pfuelArr]

theorem pfuelArr_cons (x : JVal) (xs : List JVal) :
    pfuelArr (x :: xs) = 1 + Nat.max (pfuel x) (pfuelArr xs) := by simp [pfuelArr]

theorem pfuelFields_nil : pfuelFields [] = 1 := by simp [pfuelFields]

theorem pfuelFields_cons (k : String) (v : JVal) (fs : List (String × JVal)) :
    pfuelFields ((k, v) :: fs) = 1 + Nat.max (pfuel v) (pfuelFields fs) := by simp [pfuelFields]

theorem pfuel_jarr (xs : List JVal) : pfuel (.jarr xs) = 1 + pfuelArr xs := by simp [pfuel]

theorem pfuel_jobj (fs : List (String × JVal)) : pfuel (.jobj fs) = 1 + pfuelFields fs := by
  simp [pfuel]

theorem serItems_one (lvl : Nat) (x : JVal) : serItems lvl [x] = serVal lvl x := by
  simp [serItems]

theorem serFields_one (lvl : Nat) (k : String) (v : JVal) :
    serFields lvl [(k, v)] = escString k ++ ':' :: ' ' :: serVal lvl v := by
  simp [serFields]

theorem serFields_two (lvl : Nat) (k : String) (v : JVal) (g : String × JVal)
    (gs : List (String × JVal)) :
    serFields lvl ((k, v) :: g :: gs)
      = escString k ++ ':' :: ' ' :: serVal lvl v ++ ',' :: (nlIndent lvl ++ serFields lvl (g :: gs)) := by
  simp [serFields]

mutual

theorem pfuel_le : ∀ (lvl : Nat) (v : JVal), pfuel v ≤ (serVal lvl v).length + 1
  | _, .jstr s => by simp [pfuel]
  | _, .jnum neg ip fp => by simp [pfuel]
  | _, .jbool b => by simp [pfuel]
  | _, .jnull => by simp [pfuel]
  | lvl, .jarr [] => by rw [pfuel_jarr, pfuelArr_nil]; simp [serVal]
  | lvl, .jarr (x :: xs) => by
      have hb := pfuelArr_le (lvl + 1) (x :: xs)
      rw [pfuel_jarr]
      have hlen : (serVal lvl (.jarr (x :: xs))).length
          = (serItems (lvl + 1) (x :: xs)).length + (4 * (lvl + 1) + 1) + (4 * lvl + 1) + 2 := by
        simp [serVal, nlIndent]
        omega
      omega
  | lvl, .jobj [] => by rw [pfuel_jobj, pfuelFields_nil]; simp [serVal]
  | lvl, .jobj (f :: fs) => by
      have hb := pfuelFields_le (lvl + 1) (f :: fs)
      rw [pfuel_jobj]
      have hlen : (serVal lvl (.jobj (f :: fs))).length
          = (serFields (lvl + 1) (f :: fs)).length + (4 * (lvl + 1) + 1) + (4 * lvl + 1) + 2 := by
        simp [serVal, nlIndent]
        omega
      omega

theorem pfuelArr_le : ∀ (lvl : Nat) (xs : List JVal), pfuelArr xs ≤ (serItems lvl xs).length + 2
  | _, [] => by rw [pfuelArr_nil]; omega
  | lvl, [x] => by
      have h1 := pfuel_le lvl x
      rw [pfuelArr_cons, pfuelArr_nil, serItems_one]
      have hm : Nat.max (pfuel x) 1 ≤ (serVal lvl x).length + 1 :=
        Nat.max_le.mpr ⟨h1, by omega⟩
      omega
  | lvl, x :: y :: ys => by
      have h1 := pfuel_le lvl x
      have h2 := pfuelArr_le lvl (y :: ys)
      rw [pfuelArr_cons, serItems_two]
      have hm : Nat.max (pfuel x) (pfuelArr (y :: ys))
          ≤ (serVal lvl x).length + (serItems lvl (y :: ys)).length + 2 :=
        Nat.max_le.mpr ⟨by omega, by omega⟩
      have hlen : (serVal lvl x ++ ',' :: (nlIndent lvl ++ serItems lvl (y :: ys))).length
          = (serVal lvl x).length + (serItems lvl (y :: ys)).length + (4 * lvl + 2) := by
        simp [nlIndent]
        omega
      omega

theorem pfuelFields_le :
    ∀ (lvl : Nat) (fs : List (String × JVal)), pfuelFields fs ≤ (serFields lvl fs).length + 2
  | _, [] => by rw [pfuelFields_nil]; omega
  | lvl, [(k, v)] => by
      have h1 := pfuel_le lvl v
      rw [pfuelFields_cons, pfuelFields_nil, serFields_one]
      have hm : Nat.max (pfuel v) 1 ≤ (serVal lvl v).length + 1 :=
        Nat.max_le.mpr ⟨h1, by omega⟩
      have hlen : (escString k ++ ':' :: ' ' :: serVal lvl v).length
          = (escString k).length + (serVal lvl v).length + 2 := by
        simp
        omega
      omega
  | lvl, (k, v) :: g :: gs => by
      have h1 := pfuel_le lvl v
      have h2 := pfuelFields_le lvl (g :: gs)
      rw [pfuelFields_cons, serFields_two]
      have hm : Nat.max (pfuel v) (pfuelFields (g :: gs))
          ≤ (serVal lvl v).length + (serFields lvl (g :: gs)).length + 2 :=
        Nat.max_le.mpr ⟨by omega, by omega⟩
      have hlen : (escString k ++ ':' :: ' ' :: serVal lvl v
            ++ ',' :: (nlIndent lvl ++ serFields lvl (g :: gs))).length
          = (escString k).length + (serVal lvl v).length
            + (serFields lvl (g :: gs)).length + (4 * lvl + 4) := by
        simp [nlIndent]
        omega
      omega

end
-- step lemma candidates (appended to main file for testing)
theorem parseF_quote (fuel : Nat) (cs : List Char) :
    parseF (fuel + 1) .value ('"' :: cs) =
      match parseStringBody (cs.length + 1) cs with
      | some (l, rest) => some (.oval (.jstr (String.mk l)), rest)
      | none => none := rfl

theorem parseF_dash (fuel : Nat) (cs : List Char) :
    parseF (fuel + 1) .value ('-' :: cs) =
      match parseNumTail cs with
      | some ((ip, fp), rest) => some (.oval (.jnum true ip fp), rest)
      | none => none := rfl

theorem parseF_true (fuel : Nat) (rest : List Char) :
    parseF (fuel + 1) .value ('t' :: 'r' :: 'u' :: 'e' :: rest)
      = some (.oval (.jbool true), rest) := rfl

theorem parseF_false (fuel : Nat) (rest : List Char) :
    parseF (fuel + 1) .value ('f' :: 'a' :: 'l' :: 's' :: 'e' :: rest)
      = some (.oval (.jbool false), rest) := rfl

theorem parseF_null (fuel : Nat) (rest : List Char) :
    parseF (fuel + 1) .value ('n' :: 'u' :: 'l' :: 'l' :: rest)
      = some (.oval .jnull, rest) := rfl

theorem parseF_lbracket (fuel : Nat) (cs : List Char) :
    parseF (fuel + 1) .value ('[' :: cs) =
      match skipWs cs with
      | ']' :: rest => some (.oval (.jarr []), rest)
      | r =>
        match parseF fuel .items r with
        | some (.oitems xs, rest) => some (.oval (.jarr xs), rest)
        | _ => none := rfl

theorem parseF_lcurly (fuel : Nat) (cs : List Char) :
    parseF (fuel + 1) .value (lbrace :: cs) =
      match skipWs cs with
      | [] => none
      | d :: r =>
        if d = rbrace then some (.oval (.jobj []), r)
        else
          match parseF fuel .fields (d :: r) with
          | some (.ofields fs, rest) => some (.oval (.jobj fs), rest)
          | _ => none := rfl

theorem parseF_items_step (fuel : Nat) (s : List Char) :
    parseF (fuel + 1) .items s =
      match parseF fuel .value s with
      | some (.oval v, r) =>
        (match skipWs r with
         | ']' :: r2 => some (.oitems [v], r2)
         | ',' :: r2 =>
           (match parseF fuel .items (skipWs r2) with
            | some (.oitems vs, r3) => some (.oitems (v :: vs), r3)
            | _ => none)
         | _ => none)
      | _ => none := rfl

theorem parseF_fields_quote (fuel : Nat) (cs : List Char) :
    parseF (fuel + 1) .fields ('"' :: cs) =
      match parseStringBody (cs.length + 1) cs with
      | some (k, r1) =>
        (match skipWs r1 with
         | ':' :: r2 =>
           (match parseF fuel .value (skipWs r2) with
            | some (.oval v, r3) =>
              (match skipWs r3 with
               | d :: r4 =>
                 if d = rbrace then some (.ofields [(String.mk k, v)], r4)
                 else if d = ',' then
                   match parseF fuel .fields (skipWs r4) with
                   | some (.ofields fs, r5) => some (.ofields ((String.mk k, v) :: fs), r5)
                   | _ => none
                 else none
               | [] => none)
            | _ => none)
         | _ => none)
      | none => none := rfl

theorem parseF_digit (fuel : Nat) (c : Char) (cs : List Char) (hc : c.isDigit = true) :
    parseF (fuel + 1) .value (c :: cs) =
      match parseNumTail (c :: cs) with
      | some ((ip, fp), rest) => some (.oval (.jnum false ip fp), rest)
      | none => none := by
  obtain ⟨h1, h2, h3, h4, h5, h6, h7, h8, -, -, -, -, -⟩ := digit_ne hc
  simp only [parseF, if_neg h1, if_neg h3, if_neg h4, if_neg h5, if_neg h6, if_neg h7,
    if_neg h8, hc, if_pos]

theorem pfuel_pos (v : JVal) : 1 ≤ pfuel v := by
  cases v <;> simp [pfuel, pfuelArr_nil, pfuelFields_nil]

theorem sepOK_nl (l : Nat) (r : List Char) : sepOK (nlIndent l ++ r) = true := by
  simp [nlIndent, sepOK]

theorem sepOK_comma (r : List Char) : sepOK (',' :: r) = true := by
  simp [sepOK]

theorem serItems_head (lvl : Nat) (x : JVal) (xs : List JVal) (hx : wfJ x = true) :
    ∃ c t, serItems lvl (x :: xs) = c :: t ∧ pyWs c = false ∧ c ≠ ']' ∧ c ≠ rbrace := by
  obtain ⟨c, t, heq, hws, hbr, hbc⟩ := serVal_head lvl x hx
  cases xs with
  | nil => exact ⟨c, t, by rw [serItems_one, heq], hws, hbr, hbc⟩
  | cons y ys =>
      exact ⟨c, t ++ ',' :: (nlIndent lvl ++ serItems lvl (y :: ys)),
        by rw [serItems_two, heq, List.cons_append], hws, hbr, hbc⟩

theorem parseF_ser (fuel : Nat) :
    (∀ (v : JVal) (lvl : Nat) (rest : List Char), wfJ v = true → pfuel v ≤ fuel →
        sepOK rest = true →
        parseF fuel .value (serVal lvl v ++ rest) = some (.oval v, rest)) ∧
    (∀ (x : JVal) (xs : List JVal) (lvl l2 : Nat) (rest : List Char),
        wfArr (x :: xs) = true → pfuelArr (x :: xs) ≤ fuel →
        parseF fuel .items (serItems lvl (x :: xs) ++ (nlIndent l2 ++ ']' :: rest))
          = some (.oitems (x :: xs), rest)) ∧
    (∀ (k : String) (v : JVal) (fs : List (String × JVal)) (lvl l2 : Nat) (rest : List Char),
        wfFields ((k, v) :: fs) = true → pfuelFields ((k, v) :: fs) ≤ fuel →
        parseF fuel .fields (serFields lvl ((k, v) :: fs) ++ (nlIndent l2 ++ rbrace :: rest))
          = some (.ofields ((k, v) :: fs), rest)) := by
  induction fuel with
  | zero =>
      refine ⟨fun v lvl rest hwf hf hsep => absurd hf ?_,
        fun x xs lvl l2 rest hwf hf => absurd hf ?_,
        fun k v fs lvl l2 rest hwf hf => absurd hf ?_⟩
      · have := pfuel_pos v; omega
      · rw [pfuelArr_cons]; omega
      · rw [pfuelFields_cons]; omega
  | succ f ih =>
      obtain ⟨ihv, ihi, ihf⟩ := ih
      refine ⟨?_, ?_, ?_⟩
      · -- value mode
        intro v lvl rest hwf hfl hsep
        cases v with
        | jstr s =>
            have harg : serVal lvl (.jstr s) ++ rest
                = '"' :: ((s.data.map escChar).flatten ++ '"' :: rest) := by
              simp [serVal, escString]
            have hlen : s.data.length < ((s.data.map escChar).flatten ++ '"' :: rest).length + 1 := by
              have := length_le_flatten_escChar s.data
              simp only [List.length_append, List.length_cons]
              omega
            rw [harg, parseF_quote, psb_flatten s.data _ _ hlen]
        | jnum neg ip fp =>
            have hwfn : wfNum ip fp = true := by simpa [wfJ] using hwf
            cases neg with
            | true =>
                have harg : serVal lvl (.jnum true ip fp) ++ rest
                    = '-' :: (ip ++ ((if fp = [] then [] else '.' :: fp) ++ rest)) := by
                  simp [serVal, serNum, List.append_assoc]
                rw [harg, parseF_dash, parseNumTail_ser ip fp rest hwfn hsep]
            | false =>
                obtain ⟨hne, hdig, -, -⟩ := wfNum_parts hwfn
                cases ip with
                | nil => simp at hne
                | cons d ds =>
                    have hd : d.isDigit = true := by
                      simp only [List.all_cons, Bool.and_eq_true] at hdig
                      exact hdig.1
                    have harg : serVal lvl (.jnum false (d :: ds) fp) ++ rest
                        = d :: (ds ++ ((if fp = [] then [] else '.' :: fp) ++ rest)) := by
                      simp [serVal, serNum, List.append_assoc]
                    have hnum := parseNumTail_ser (d :: ds) fp rest hwfn hsep
                    rw [List.cons_append] at hnum
                    rw [harg, parseF_digit f d _ hd, hnum]
        | jbool b =>
            cases b with
            | true =>
                have harg : serVal lvl (.jbool true) ++ rest
                    = 't' :: 'r' :: 'u' :: 'e' :: rest := by simp [serVal]
                rw [harg, parseF_true]
            | false =>
                have harg : serVal lvl (.jbool false) ++ rest
                    = 'f' :: 'a' :: 'l' :: 's' :: 'e' :: rest := by simp [serVal]
                rw [harg, parseF_false]
        | jnull =>
            have harg : serVal lvl .jnull ++ rest = 'n' :: 'u' :: 'l' :: 'l' :: rest := by
              simp [serVal]
            rw [harg, parseF_null]
        | jarr xs =>
            cases xs with
            | nil =>
                have harg : serVal lvl (.jarr []) ++ rest = '[' :: (']' :: rest) := by
                  simp [serVal]
                rw [harg, parseF_lbracket, skipWs_cons_notWs _ (by decide)]
                rfl
            | cons x xs2 =>
                have hwfa : wfArr (x :: xs2) = true := by simpa [wfJ] using hwf
                have hx : wfJ x = true := by
                  simp only [wfArr, Bool.and_eq_true] at hwfa
                  exact hwfa.1
                have hfl2 : pfuelArr (x :: xs2) ≤ f := by
                  rw [pfuel_jarr] at hfl
                  omega
                have harg : serVal lvl (.jarr (x :: xs2)) ++ rest
                    = '[' :: (nlIndent (lvl + 1)
                        ++ (serItems (lvl + 1) (x :: xs2) ++ (nlIndent lvl ++ ']' :: rest))) := by
                  simp [serVal, List.append_assoc]
                rw [harg, parseF_lbracket, skipWs_nlIndent,
                  skipWs_serItems _ _ _ _ hx]
                obtain ⟨c, t, hhead, -, hbr, -⟩ := serItems_head (lvl + 1) x xs2 hx
                split
                · rename_i r heq
                  rw [hhead, List.cons_append, List.cons.injEq] at heq
                  exact absurd heq.1 hbr
                · rw [ihi x xs2 (lvl + 1) lvl rest hwfa hfl2]
        | jobj fs =>
            cases fs with
            | nil =>
                have harg : serVal lvl (.jobj []) ++ rest = lbrace :: (rbrace :: rest) := by
                  simp [serVal]
                rw [harg, parseF_lcurly, skipWs_cons_notWs _ (by decide)]
                simp
            | cons g fs2 =>
                obtain ⟨k, v⟩ := g
                have hwff : wfFields ((k, v) :: fs2) = true := by
                  simp only [wfJ, Bool.and_eq_true] at hwf
                  exact hwf.1
                have hfl2 : pfuelFields ((k, v) :: fs2) ≤ f := by
                  rw [pfuel_jobj] at hfl
                  omega
                have harg : serVal lvl (.jobj ((k, v) :: fs2)) ++ rest
                    = lbrace :: (nlIndent (lvl + 1)
                        ++ (serFields (lvl + 1) ((k, v) :: fs2)
                            ++ (nlIndent lvl ++ rbrace :: rest))) := by
                  simp [serVal, List.append_assoc]
                rw [harg, parseF_lcurly, skipWs_nlIndent,
                  skipWs_serFields _ _ _ _ _]
                obtain ⟨X, hX⟩ := serFields_head (lvl + 1) k v fs2
                rw [hX, List.cons_append]
                simp only [if_neg (show ¬ ('"' = rbrace) by decide)]
                rw [← List.cons_append, ← hX, ihf k v fs2 (lvl + 1) lvl rest hwff hfl2]
      · -- items mode
        intro x xs lvl l2 rest hwfa hfl
        have hx : wfJ x = true := by
          simp only [wfArr, Bool.and_eq_true] at hwfa
          exact hwfa.1
        rw [pfuelArr_cons] at hfl
        cases xs with
        | nil =>
            have hmx : Nat.max (pfuel x) (pfuelArr ([] : List JVal)) ≤ f := by omega
            have hfx : pfuel x ≤ f := (Nat.max_le.mp hmx).1
            rw [serItems_one, parseF_items_step,
              ihv x lvl _ hx hfx (sepOK_nl l2 _)]
            have h1 : skipWs (nlIndent l2 ++ ']' :: rest) = ']' :: rest := by
              rw [skipWs_nlIndent, skipWs_cons_notWs _ (by decide)]
            simp only [h1]
        | cons y ys =>
            have hwfys : wfArr (y :: ys) = true := by
              simp only [wfArr, Bool.and_eq_true] at hwfa ⊢
              exact hwfa.2
            have hmx : Nat.max (pfuel x) (pfuelArr (y :: ys)) ≤ f := by omega
            have hfx : pfuel x ≤ f := (Nat.max_le.mp hmx).1
            have hfys : pfuelArr (y :: ys) ≤ f := (Nat.max_le.mp hmx).2
            have harg : serItems lvl (x :: y :: ys) ++ (nlIndent l2 ++ ']' :: rest)
                = serVal lvl x ++ (',' :: (nlIndent lvl
                    ++ (serItems lvl (y :: ys) ++ (nlIndent l2 ++ ']' :: rest)))) := by
              rw [serItems_two]
              simp [List.append_assoc]
            rw [harg, parseF_items_step,
              ihv x lvl _ hx hfx (sepOK_comma _)]
            have h1 : skipWs (nlIndent lvl
                ++ (serItems lvl (y :: ys) ++ (nlIndent l2 ++ ']' :: rest)))
                = serItems lvl (y :: ys) ++ (nlIndent l2 ++ ']' :: rest) := by
              rw [skipWs_nlIndent, skipWs_serItems _ _ _ _ (by
                simp only [wfArr, Bool.and_eq_true] at hwfys ⊢
                exact hwfys.1)]
            simp only [skipWs_cons_notWs _ (by decide : pyWs ',' = false), h1,
              ihi y ys lvl l2 rest hwfys hfys]
      · -- fields mode
        intro k v fs lvl l2 rest hwff hfl
        have hv : wfJ v = true := by
          simp only [wfFields, Bool.and_eq_true] at hwff
          exact hwff.1
        rw [pfuelFields_cons] at hfl
        cases fs with
        | nil =>
            have hmx : Nat.max (pfuel v) (pfuelFields ([] : List (String × JVal))) ≤ f := by
              omega
            have hfv : pfuel v ≤ f := (Nat.max_le.mp hmx).1
            have harg : serFields lvl [(k, v)] ++ (nlIndent l2 ++ rbrace :: rest)
                = '"' :: ((k.data.map escChar).flatten
                    ++ '"' :: (':' :: (' ' :: (serVal lvl v
                        ++ (nlIndent l2 ++ rbrace :: rest))))) := by
              rw [serFields_one]
              simp [escString, List.append_assoc]
            have hlen : k.data.length
                < ((k.data.map escChar).flatten
                    ++ '"' :: (':' :: (' ' :: (serVal lvl v
                        ++ (nlIndent l2 ++ rbrace :: rest))))).length + 1 := by
              have := length_le_flatten_escChar k.data
              simp only [List.length_append, List.length_cons]
              omega
            rw [harg, parseF_fields_quote, psb_flatten k.data _ _ hlen]
            have h1 : skipWs (':' :: (' ' :: (serVal lvl v
                ++ (nlIndent l2 ++ rbrace :: rest))))
                = ':' :: (' ' :: (serVal lvl v ++ (nlIndent l2 ++ rbrace :: rest))) :=
              skipWs_cons_notWs _ (by decide)
            have h2 : skipWs (' ' :: (serVal lvl v ++ (nlIndent l2 ++ rbrace :: rest)))
                = serVal lvl v ++ (nlIndent l2 ++ rbrace :: rest) := by
              have : pyWs ' ' = true := by decide
              rw [show skipWs (' ' :: (serVal lvl v ++ (nlIndent l2 ++ rbrace :: rest)))
                  = skipWs (serVal lvl v ++ (nlIndent l2 ++ rbrace :: rest)) from by
                simp [skipWs, this]]
              exact skipWs_serVal lvl v _ hv
            have h3 : skipWs (nlIndent l2 ++ rbrace :: rest) = rbrace :: rest := by
              rw [skipWs_nlIndent, skipWs_cons_notWs _ (by decide)]
            simp only [h1, h2, ihv v lvl _ hv hfv (sepOK_nl l2 _), h3]
            rfl
        | cons g gs =>
            obtain ⟨k2, v2⟩ := g
            have hwfgs : wfFields ((k2, v2) :: gs) = true := by
              simp only [wfFields, Bool.and_eq_true] at hwff ⊢
              exact hwff.2
            have hmx : Nat.max (pfuel v) (pfuelFields ((k2, v2) :: gs)) ≤ f := by omega
            have hfv : pfuel v ≤ f := (Nat.max_le.mp hmx).1
            have hfgs : pfuelFields ((k2, v2) :: gs) ≤ f := (Nat.max_le.mp hmx).2
            have harg : serFields lvl ((k, v) :: (k2, v2) :: gs) ++ (nlIndent l2 ++ rbrace :: rest)
                = '"' :: ((k.data.map escChar).flatten
                    ++ '"' :: (':' :: (' ' :: (serVal lvl v
                        ++ (',' :: (nlIndent lvl
                            ++ (serFields lvl ((k2, v2) :: gs)
                                ++ (nlIndent l2 ++ rbrace :: rest)))))))) := by
              rw [serFields_two]
              simp [escString, List.append_assoc]
            have hlen : k.data.length
                < ((k.data.map escChar).flatten
                    ++ '"' :: (':' :: (' ' :: (serVal lvl v
                        ++ (',' :: (nlIndent lvl
                            ++ (serFields lvl ((k2, v2) :: gs)
                                ++ (nlIndent l2 ++ rbrace :: rest)))))))).length + 1 := by
              have := length_le_flatten_escChar k.data
              simp only [List.length_append, List.length_cons]
              omega
            rw [harg, parseF_fields_quote, psb_flatten k.data _ _ hlen]
            have h1 : ∀ (X : List Char), skipWs (':' :: X) = ':' :: X :=
              fun X => skipWs_cons_notWs _ (by decide)
            have h2 : skipWs (' ' :: (serVal lvl v
                ++ (',' :: (nlIndent lvl
                    ++ (serFields lvl ((k2, v2) :: gs) ++ (nlIndent l2 ++ rbrace :: rest))))))
                = serVal lvl v ++ (',' :: (nlIndent lvl
                    ++ (serFields lvl ((k2, v2) :: gs) ++ (nlIndent l2 ++ rbrace :: rest)))) := by
              rw [show ∀ (X : List Char), skipWs (' ' :: X) = skipWs X from fun X => by
                simp [skipWs, pyWs]]
              exact skipWs_serVal lvl v _ hv
            have h3 : skipWs (nlIndent lvl
                ++ (serFields lvl ((k2, v2) :: gs) ++ (nlIndent l2 ++ rbrace :: rest)))
                = serFields lvl ((k2, v2) :: gs) ++ (nlIndent l2 ++ rbrace :: rest) := by
              rw [skipWs_nlIndent]
              exact skipWs_serFields lvl k2 v2 gs _
            simp only [h1, h2, ihv v lvl _ hv hfv (sepOK_comma _),
              skipWs_cons_notWs _ (by decide : pyWs ',' = false), h3,
              ihf k2 v2 gs lvl l2 rest hwfgs hfgs,
              if_neg (show ¬ (',' = rbrace) by decide)]
            rfl

theorem jsonLoadTop_dump (v : JVal) (h : wfJ v = true) :
    jsonLoadTop (jsonDump v) = some v := by
  have h0 : skipWs (serVal 0 v) = serVal 0 v := by
    have := skipWs_serVal 0 v [] h
    simpa using this
  have hp := (parseF_ser ((serVal 0 v).length + 1)).1 v 0 [] h (pfuel_le 0 v) rfl
  rw [List.append_nil] at hp
  simp only [jsonLoadTop, jsonDump]
  rw [h0, hp]
  rfl

/-!
## The history store (`main.py` lines 17-33)

`load_feedback_history` opens `FEEDBACK_HISTORY_FILE` when it exists and
returns `json.load(f)`; a `json.JSONDecodeError` is caught, a warning shown,
and `[]` returned; a missing file also yields `[]`. `save_feedback_history`
rewrites the whole file with `json.dump(history, f, ensure_ascii=False,
indent=4)`. The persisted file is modelled as `Option String` (`none` =
no file on disk, `some s` = a file with decoded text `s`).
-/

def load_feedback_history (file : Option String) : JVal :=
  match file with
  | none => JVal.jarr []
  | some s =>
    match jsonLoadTop s with
    | some v => v
    | none => JVal.jarr []

def save_feedback_history (history : JVal) : String := jsonDump history

theorem load_save_wf (v : JVal) (h : wfJ v = true) :
    load_feedback_history (some (save_feedback_history v)) = v := by
  simp [load_feedback_history, save_feedback_history, jsonLoadTop_dump v h]

/-!
## Score extraction (`main.py` lines 181-184)

The code runs
`re.search(r"Nota geral de 0 a 10 da MINHA performance.*:?\s*(\d+(\.\d+)?)",
resposta_raw, re.IGNORECASE | re.DOTALL)` and takes
`float(nota_match.group(1))` on success, the string `"N/A"` otherwise.

The pattern is a case-insensitive literal, a greedy `.*` (DOTALL, so it
crosses newlines), an optional colon, optional whitespace, and a captured
numeral `\d+(\.\d+)?`. `re.search` anchors at the leftmost position where
the whole pattern matches; within that, the greedy `.*` is backtracked from
the end, so the first overall success is the one with `.*` as long as
possible. `tryStar` mirrors that order exactly (longest `.*` = shortest
suffix first). `:?` and `\s*` need no backtracking of their own: when
consuming the colon or a whitespace run leads to failure, not consuming it
fails as well, because `\d` matches neither a colon nor whitespace; so they
are deterministic here. `\d` and `\s` are modelled by their ASCII parts and
case folding by ASCII `toLower`, as in the Python pattern's own alphabet.
-/

/-- The literal part of the score-extraction pattern. -/
def labelChars : List Char := "Nota geral de 0 a 10 da MINHA performance".data

/-- Case-insensitive literal match; returns the remainder on success. -/
def matchLit : List Char → List Char → Option (List Char)
  | [], s => some s
  | _ :: _, [] => none
  | p :: ps, c :: cs => if c.toLower = p.toLower then matchLit ps cs else none

/-- The regex class `\s` (ASCII part): space, tab, newline, carriage
return, vertical tab, formfeed. -/
def reWs (c : Char) : Bool :=
  c == ' ' || c == '\t' || c == '\n' || c == '\r' || c == Char.ofNat 11 || c == Char.ofNat 12

/-- Consume the optional colon of `:?`. -/
def dropColon : List Char → List Char
  | c :: r => if c = ':' then r else c :: r
  | [] => []

/-- Consume the whitespace run of `\s*`. -/
def dropSpaces : List Char → List Char
  | c :: r => if reWs c then dropSpaces r else c :: r
  | [] => []

/-- The captured numeral `(\d+(\.\d+)?)` at the head of the input. -/
def numTail3 (s2 : List Char) : Option String :=
  let p := takeDigits s2
  if p.1.isEmpty then none
  else
    match p.2 with
    | c :: r2 =>
      if c = '.' then
        (let q := takeDigits r2
         if q.1.isEmpty then some (String.mk p.1) else some (String.mk (p.1 ++ '.' :: q.1)))
      else some (String.mk p.1)
    | [] => some (String.mk p.1)

/-- `\s*(\d+(\.\d+)?)`. -/
def numTail2 (s1 : List Char) : Option String := numTail3 (dropSpaces s1)

/-- The pattern tail after `.*`, namely `:?\s*(\d+(\.\d+)?)`. -/
def matchNum (s : List Char) : Option String := numTail2 (dropColon s)

/-- Greedy `.*` with backtracking: the longest consumption is tried first,
so the deepest (shortest) suffix is tried first. -/
def tryStar : List Char → Option String
  | [] => matchNum []
  | c :: cs => (tryStar cs).orElse (fun _ => matchNum (c :: cs))

/-- The full pattern anchored at the head of the input. -/
def searchAt (s : List Char) : Option String :=
  match matchLit labelChars s with
  | some r => tryStar r
  | none => none

/-- `re.search`: scan anchor positions left to right, first full match wins. -/
def notaSearch : List Char → Option String
  | [] => searchAt []
  | c :: cs => (searchAt (c :: cs)).orElse (fun _ => notaSearch cs)

/-- Line 183: the match object, reduced to its captured group. -/
def nota_match (resposta_raw : String) : Option String :=
  notaSearch resposta_raw.data

/-- The score as stored: a float (kept as the canonical decimal digits of
its `repr`, which is also what `json.dump` writes) or the string `"N/A"`. -/
inductive Nota where
  | val (ip fp : List Char)
  | na

/-- Split a numeral at the first dot. -/
def splitFrac : List Char → List Char × List Char
  | c :: r =>
    if c = '.' then ([], r)
    else
      (let p := splitFrac r
       (c :: p.1, p.2))
  | [] => ([], [])

def stripLeadingZeros : List Char → List Char
  | c :: r => if c = '0' then stripLeadingZeros r else c :: r
  | [] => []

def stripTrailingZeros (l : List Char) : List Char :=
  (stripLeadingZeros l.reverse).reverse

/-- Model of `float(g)` followed by printing (`repr`, also used by
`json.dump`), for captures of shape `\d+(\.\d+)?`: normalize to canonical
decimal digits (drop leading integer zeros and trailing fraction zeros; a
float always prints at least one digit on both sides, so `8` becomes
`8.0`). For the short decimals involved this equals the CPython text; the
long-mantissa cases where binary rounding would differ cannot arise, since
captures are proven below to be single digits. -/
def pyFloatDigits (g : List Char) : List Char × List Char :=
  let p := splitFrac g
  let ip := stripLeadingZeros p.1
  let fp := stripTrailingZeros p.2
  (if ip.isEmpty then ['0'] else ip, if fp.isEmpty then ['0'] else fp)

/-- Line 184: `float(nota_match.group(1)) if nota_match else "N/A"`. -/
def nota_final (resposta_raw : String) : Nota :=
  match nota_match resposta_raw with
  | some g => Nota.val (pyFloatDigits g.data).1 (pyFloatDigits g.data).2
  | none => Nota.na

/-- Numeric value (exact) of a stored score. -/
def digitsToNat (ds : List Char) : Nat :=
  ds.foldl (fun a c => a * 10 + (c.toNat - 48)) 0

/-- The rational value denoted by a `Nota`, when it is numeric. -/
def notaValue : Nota → Option ℚ
  | .val ip fp => some ((digitsToNat ip : ℚ) + (digitsToNat fp : ℚ) / (10 : ℚ) ^ fp.length)
  | .na => none

theorem matchNum_nil : matchNum [] = none := rfl

theorem orElse_some {α : Type} (x : α) (f : Unit → Option α) :
    (some x).orElse f = some x := rfl

theorem orElse_none {α : Type} (f : Unit → Option α) : (none : Option α).orElse f = f () := rfl

theorem tryStar_none {r : List Char} (h : tryStar r = none) :
    ∀ k, matchNum (r.drop k) = none := by
  induction r with
  | nil =>
      intro k
      rw [List.drop_nil]
      exact matchNum_nil
  | cons c cs ih =>
      have hsplit : tryStar cs = none ∧ matchNum (c :: cs) = none := by
        rw [tryStar] at h
        cases htc : tryStar cs with
        | some g => rw [htc, orElse_some] at h; exact absurd h (by simp)
        | none => rw [htc, orElse_none] at h; exact ⟨rfl, h⟩
      intro k
      cases k with
      | zero => exact hsplit.2
      | succ k2 => exact ih hsplit.1 k2

theorem tryStar_none_of {r : List Char} (h : ∀ k, matchNum (r.drop k) = none) :
    tryStar r = none := by
  induction r with
  | nil => exact h 0
  | cons c cs ih =>
      rw [tryStar, ih (fun k => h (k + 1)), orElse_none]
      exact h 0

theorem tryStar_some {r : List Char} {g : String} (h : tryStar r = some g) :
    ∃ kk, matchNum (r.drop kk) = some g ∧ tryStar r = matchNum (r.drop kk) ∧
      ∀ j, kk < j → matchNum (r.drop j) = none := by
  induction r with
  | nil =>
      rw [tryStar, matchNum_nil] at h
      exact absurd h (by simp)
  | cons c cs ih =>
      rw [tryStar] at h
      cases htc : tryStar cs with
      | some g2 =>
          rw [htc, orElse_some] at h
          obtain ⟨kk, h1, h2, h3⟩ := ih (htc.trans h)
          refine ⟨kk + 1, h1, ?_, ?_⟩
          · rw [tryStar, htc, orElse_some, List.drop_succ_cons, h1, ← h, ← htc, h2, h1]
          · intro j hj
            cases j with
            | zero => omega
            | succ j2 => exact h3 j2 (by omega)
      | none =>
          rw [htc, orElse_none] at h
          refine ⟨0, h, ?_, ?_⟩
          · rw [tryStar, htc, orElse_none, List.drop_zero]
          · intro j hj
            cases j with
            | zero => omega
            | succ j2 => exact tryStar_none htc j2

theorem takeDigits_fst_nil {s r : List Char} (h : takeDigits s = ([], r)) : r = s := by
  cases s with
  | nil =>
      rw [takeDigits] at h
      exact (congrArg Prod.snd h).symm
  | cons c cs =>
      by_cases hc : c.isDigit
      · rw [takeDigits, if_pos hc] at h
        exact absurd (congrArg Prod.fst h) (by simp)
      · rw [takeDigits, if_neg hc] at h
        exact (congrArg Prod.snd h).symm

theorem takeDigits_cons_digit {c : Char} (t : List Char) (hc : c.isDigit = true) :
    takeDigits (c :: t) = (c :: (takeDigits t).1, (takeDigits t).2) := by
  rw [takeDigits, if_pos hc]

theorem takeDigits_shape {s : List Char} {d : Char} {ds r : List Char}
    (h : takeDigits s = (d :: ds, r)) :
    ∃ t, s = d :: t ∧ d.isDigit = true ∧ takeDigits t = (ds, r) := by
  cases s with
  | nil => exact absurd (congrArg Prod.fst h) (by simp [takeDigits])
  | cons c cs =>
      by_cases hc : c.isDigit
      · rw [takeDigits_cons_digit cs hc] at h
        have h1 := congrArg Prod.fst h
        have h2 := congrArg Prod.snd h
        simp only [List.cons.injEq] at h1
        obtain ⟨hcd, hds⟩ := h1
        subst hcd
        refine ⟨cs, rfl, hc, ?_⟩
        simp only at h2
        rw [← hds, ← h2]
      · rw [takeDigits, if_neg hc] at h
        exact absurd (congrArg Prod.fst h) (by simp)

theorem digit_not_reWs {c : Char} (h : c.isDigit = true) : reWs c = false := by
  by_contra hne
  have hw : reWs c = true := by
    cases hb : reWs c
    · exact absurd hb hne
    · rfl
  simp only [reWs, Bool.or_eq_true, beq_iff_eq] at hw
  rcases hw with ((((rfl | rfl) | rfl) | rfl) | rfl) | rfl <;> simp_all [Char.isDigit]

theorem dropColon_cons_ne {c : Char} (cs : List Char) (h : c ≠ ':') :
    dropColon (c :: cs) = c :: cs := by
  simp [dropColon, h]

theorem dropSpaces_cons_ws {c : Char} (cs : List Char) (h : reWs c = true) :
    dropSpaces (c :: cs) = dropSpaces cs := by
  simp [dropSpaces, h]

theorem dropSpaces_cons_not {c : Char} (cs : List Char) (h : reWs c = false) :
    dropSpaces (c :: cs) = c :: cs := by
  simp [dropSpaces, h]

theorem numTail2_colon_cons (cs : List Char) : numTail2 (':' :: cs) = none := rfl

theorem numTail3_colon_cons (cs : List Char) : numTail3 (':' :: cs) = none := rfl

theorem matchNum_digitHead {c : Char} (t : List Char) (hc : c.isDigit = true) :
    (matchNum (c :: t)).isSome = true := by
  rw [matchNum, dropColon_cons_ne _ ((digit_ne hc).2.2.2.2.2.2.2.2.2.2.2.1),
    numTail2, dropSpaces_cons_not _ (digit_not_reWs hc), numTail3,
    takeDigits_cons_digit t hc]
  simp only [List.isEmpty_cons, Bool.false_eq_true, if_false]
  cases (takeDigits t).2 with
  | nil => simp
  | cons e r2 =>
      by_cases he : e = '.'
      · subst he
        simp only [if_pos]
        by_cases hq : (takeDigits r2).1.isEmpty
        · simp [hq]
        · simp [hq]
      · simp [he]

theorem matchNum_colon {cs : List Char} {g : String} (h : matchNum (':' :: cs) = some g) :
    matchNum cs = some g := by
  rw [matchNum, show dropColon (':' :: cs) = cs from by simp [dropColon]] at h
  have hdc : dropColon cs = cs := by
    cases cs with
    | nil => rfl
    | cons c2 cs2 =>
        by_cases hc2 : c2 = ':'
        · subst hc2
          rw [numTail2_colon_cons] at h
          exact absurd h (by simp)
        · exact dropColon_cons_ne _ hc2
  rw [matchNum, hdc]
  exact h

theorem matchNum_ws {c : Char} {cs : List Char} {g : String} (hws : reWs c = true)
    (h : matchNum (c :: cs) = some g) : matchNum cs = some g := by
  have hc : c ≠ ':' := by
    intro e
    rw [e] at hws
    exact absurd hws (by decide)
  rw [matchNum, dropColon_cons_ne _ hc, numTail2, dropSpaces_cons_ws _ hws] at h
  have hdc : dropColon cs = cs := by
    cases cs with
    | nil => rfl
    | cons c2 cs2 =>
        by_cases hc2 : c2 = ':'
        · subst hc2
          rw [show dropSpaces (':' :: cs2) = ':' :: cs2 from
              dropSpaces_cons_not _ (by decide), numTail3_colon_cons] at h
          exact absurd h (by simp)
        · exact dropColon_cons_ne _ hc2
  rw [matchNum, hdc, numTail2]
  exact h

theorem bool_not_true {b : Bool} (h : ¬ b = true) : b = false := by
  cases hb : b
  · rfl
  · exact absurd hb h

theorem matchNum_single {s : List Char} {g : String} (h : matchNum s = some g)
    (h1 : matchNum (s.drop 1) = none) (h2 : matchNum (s.drop 2) = none) :
    ∃ d, d.isDigit = true ∧ g = String.mk [d] := by
  cases s with
  | nil =>
      rw [matchNum_nil] at h
      exact absurd h (by simp)
  | cons c cs =>
      rw [show (c :: cs).drop 1 = cs from rfl] at h1
      rw [show (c :: cs).drop 2 = cs.drop 1 from rfl] at h2
      by_cases hc1 : c = ':'
      · subst hc1
        rw [matchNum_colon h] at h1
        exact absurd h1 (by simp)
      by_cases hc2 : reWs c = true
      · rw [matchNum_ws hc2 h] at h1
        exact absurd h1 (by simp)
      have hc2f : reWs c = false := bool_not_true hc2
      by_cases hc3 : c.isDigit = true
      · rw [matchNum, dropColon_cons_ne _ hc1, numTail2, dropSpaces_cons_not _ hc2f,
          numTail3, takeDigits_cons_digit cs hc3] at h
        simp only [List.isEmpty_cons, Bool.false_eq_true, if_false] at h
        cases hds : (takeDigits cs).1 with
        | cons d2 ds2 =>
            have hfull : takeDigits cs = (d2 :: ds2, (takeDigits cs).2) := by
              rw [← hds]
            obtain ⟨t, hcs, hd2, -⟩ := takeDigits_shape hfull
            have hsome := matchNum_digitHead t hd2
            rw [← hcs, h1] at hsome
            exact absurd hsome (by simp)
        | nil =>
            have hfull : takeDigits cs = ([], (takeDigits cs).2) := by
              rw [← hds]
            have hrest : (takeDigits cs).2 = cs := takeDigits_fst_nil hfull
            rw [hds, hrest] at h
            cases cs with
            | nil =>
                simp only [Option.some.injEq] at h
                exact ⟨c, hc3, h.symm⟩
            | cons e r2 =>
                rw [show (e :: r2).drop 1 = r2 from rfl] at h2
                by_cases he : e = '.'
                · subst he
                  simp only [if_pos] at h
                  cases hq : (takeDigits r2).1 with
                  | nil =>
                      rw [hq] at h
                      simp only [List.isEmpty_nil, if_true, Option.some.injEq] at h
                      exact ⟨c, hc3, h.symm⟩
                  | cons d3 ds3 =>
                      have hfull3 : takeDigits r2 = (d3 :: ds3, (takeDigits r2).2) := by
                        rw [← hq]
                      obtain ⟨t3, hr2, hd3, -⟩ := takeDigits_shape hfull3
                      have hsome := matchNum_digitHead t3 hd3
                      rw [← hr2, h2] at hsome
                      exact absurd hsome (by simp)
                · simp only [if_neg he, Option.some.injEq] at h
                  exact ⟨c, hc3, h.symm⟩
      · have hc3f : c.isDigit = false := bool_not_true hc3
        rw [matchNum, dropColon_cons_ne _ hc1, numTail2, dropSpaces_cons_not _ hc2f,
          numTail3, takeDigits] at h
        simp [hc3f] at h

theorem searchAt_nil : searchAt [] = none := rfl

theorem notaSearch_single {s : List Char} {g : String} (h : notaSearch s = some g) :
    ∃ d, d.isDigit = true ∧ g = String.mk [d] := by
  induction s with
  | nil =>
      rw [notaSearch, searchAt_nil] at h
      exact absurd h (by simp)
  | cons c cs ih =>
      rw [notaSearch] at h
      cases hsa : searchAt (c :: cs) with
      | some g1 =>
          rw [hsa, orElse_some] at h
          have hg : g1 = g := by injection h
          subst hg
          rw [searchAt] at hsa
          cases hml : matchLit labelChars (c :: cs) with
          | none =>
              rw [hml] at hsa
              exact absurd hsa (by simp)
          | some r =>
              rw [hml] at hsa
              obtain ⟨kk, hk1, -, hk3⟩ := tryStar_some hsa
              refine matchNum_single hk1 ?_ ?_
              · rw [List.drop_drop]
                exact hk3 (kk + 1) (by omega)
              · rw [List.drop_drop]
                exact hk3 (kk + 2) (by omega)
      | none =>
          rw [hsa, orElse_none] at h
          exact ih h

theorem searchAt_isSome_notaSearch {s : List Char} {i : Nat}
    (h : (searchAt (s.drop i)).isSome = true) : (notaSearch s).isSome = true := by
  induction s generalizing i with
  | nil =>
      rw [List.drop_nil] at h
      rw [notaSearch]
      exact h
  | cons c cs ih =>
      cases i with
      | zero =>
          rw [List.drop_zero] at h
          cases hsa : searchAt (c :: cs) with
          | none => rw [hsa] at h; simp at h
          | some g => rw [notaSearch, hsa, orElse_some]; simp
      | succ i2 =>
          rw [List.drop_succ_cons] at h
          cases hsa : searchAt (c :: cs) with
          | none => rw [notaSearch, hsa, orElse_none]; exact ih h
          | some g => rw [notaSearch, hsa, orElse_some]; simp

theorem matchNum_mem_digit {r : List Char} {d : Char} (hd : d ∈ r) (hdig : d.isDigit = true) :
    ∃ k, (matchNum (r.drop k)).isSome = true := by
  obtain ⟨i, hi, hget⟩ := List.getElem_of_mem hd
  refine ⟨i, ?_⟩
  rw [List.drop_eq_getElem_cons hi, hget]
  exact matchNum_digitHead _ hdig

theorem tryStar_isSome {r : List Char} {k : Nat} (h : (matchNum (r.drop k)).isSome = true) :
    (tryStar r).isSome = true := by
  cases hts : tryStar r with
  | none => rw [tryStar_none hts k] at h; simp at h
  | some g => simp

theorem mem_dropColon {x : Char} {s : List Char} (h : x ∈ dropColon s) : x ∈ s := by
  cases s with
  | nil => simp [dropColon] at h
  | cons c cs =>
      by_cases hc : c = ':'
      · subst hc
        simp only [dropColon, if_pos] at h
        exact List.mem_cons_of_mem _ h
      · rwa [dropColon_cons_ne _ hc] at h

theorem mem_dropSpaces {x : Char} {s : List Char} (h : x ∈ dropSpaces s) : x ∈ s := by
  induction s with
  | nil => simp [dropSpaces] at h
  | cons c cs ih =>
      by_cases hc : reWs c = true
      · rw [dropSpaces_cons_ws _ hc] at h
        exact List.mem_cons_of_mem _ (ih h)
      · rwa [dropSpaces_cons_not _ (bool_not_true hc)] at h

theorem matchNum_some_digit {s : List Char} {g : String} (h : matchNum s = some g) :
    ∃ d ∈ s, d.isDigit = true := by
  rw [matchNum, numTail2, numTail3] at h
  cases htd : (takeDigits (dropSpaces (dropColon s))).1 with
  | nil =>
      rw [htd] at h
      simp at h
  | cons d ds =>
      have hfull : takeDigits (dropSpaces (dropColon s)) =
          (d :: ds, (takeDigits (dropSpaces (dropColon s))).2) := by
        rw [← htd]
      obtain ⟨t, hshape, hdig, -⟩ := takeDigits_shape hfull
      refine ⟨d, ?_, hdig⟩
      exact mem_dropColon (mem_dropSpaces (by rw [hshape]; exact List.mem_cons_self _ _))

theorem notaSearch_none_of_noDigit (s : List Char)
    (H : ∀ i r, matchLit labelChars (s.drop i) = some r → ∀ c ∈ r, c.isDigit = false) :
    notaSearch s = none := by
  induction s with
  | nil => rw [notaSearch, searchAt_nil]
  | cons c cs ih =>
      have h0 : searchAt (c :: cs) = none := by
        rw [searchAt]
        cases hml : matchLit labelChars (c :: cs) with
        | none => rfl
        | some r =>
            have hnod := H 0 r (by rwa [List.drop_zero])
            refine tryStar_none_of (fun k => ?_)
            cases hmk : matchNum (r.drop k) with
            | none => rfl
            | some g =>
                obtain ⟨d, hd, hdig⟩ := matchNum_some_digit hmk
                have := hnod d (List.mem_of_mem_drop hd)
                rw [this] at hdig
                exact absurd hdig (by simp)
      rw [notaSearch, h0, orElse_none]
      exact ih (fun i r hml => H (i + 1) r (by rwa [List.drop_succ_cons]))

/-!
## Claims C1 and C2 (score extraction)
-/

/-- Follows the words of the spec, for comparison with the code's `tryStar`:
"If multiple matches exist, use the first" — the numeral of the first
place, scanning left to right, at which the numeral part completes. -/
def tryStarFirst : List Char → Option String
  | [] => matchNum []
  | c :: cs => (matchNum (c :: cs)).orElse (fun _ => tryStarFirst cs)

/-- The spec's reading of the full pattern anchored at the input head. -/
def searchAtFirst (s : List Char) : Option String :=
  match matchLit labelChars s with
  | some r => tryStarFirst r
  | none => none

/-- The spec's reading of the extractor: leftmost anchor, first numeral. -/
def notaSearchFirst : List Char → Option String
  | [] => searchAtFirst []
  | c :: cs => (searchAtFirst (c :: cs)).orElse (fun _ => notaSearchFirst cs)

/-- **C1** (counterexample). On a response in which the section label
followed by a numeral matches in two places (anchors 0 and 45), the numeral
of the first match is `8` (as `notaSearchFirst`, written from the spec's
words, confirms), but the code's extractor returns `9`: the greedy `.*`
hands back the numeral from the last completion, not the first. -/
theorem claim1_counterexample :
    (searchAt (("nota geral de 0 a 10 da minha performance: 8\nnota geral de 0 a 10 da minha performance: 9").data)).isSome = true ∧
    (searchAt (("nota geral de 0 a 10 da minha performance: 8\nnota geral de 0 a 10 da minha performance: 9").data.drop 45)).isSome = true ∧
    notaSearchFirst (("nota geral de 0 a 10 da minha performance: 8\nnota geral de 0 a 10 da minha performance: 9").data) = some "8" ∧
    nota_match "nota geral de 0 a 10 da minha performance: 8\nnota geral de 0 a 10 da minha performance: 9" = some "9" ∧
    nota_final "nota geral de 0 a 10 da minha performance: 8\nnota geral de 0 a 10 da minha performance: 9" = Nota.val ['9'] ['0'] ∧
    Nota.val ['9'] ['0'] ≠ Nota.val ['8'] ['0'] := by
  refine ⟨rfl, rfl, rfl, rfl, rfl, ?_⟩
  intro h
  injection h with h1 h2
  exact absurd h1 (by decide)

/-- **C1** (amended): when the section label matches and the numeral part of
the pattern completes at one or more suffix positions of the remainder, the
extractor returns the numeral of the *last* such completion (the greedy
`.*` of the pattern consumes as much as possible), not the first. -/
theorem claim1_extractor_uses_last_numeral (s r : List Char) (k : Nat)
    (hlab : matchLit labelChars s = some r)
    (hnum : (matchNum (r.drop k)).isSome = true) :
    ∃ kk, k ≤ kk ∧ searchAt s = matchNum (r.drop kk) ∧
      (matchNum (r.drop kk)).isSome = true ∧
      ∀ j, kk < j → matchNum (r.drop j) = none := by
  have hts : (tryStar r).isSome = true := tryStar_isSome hnum
  obtain ⟨g, hg⟩ := Option.isSome_iff_exists.mp hts
  obtain ⟨kk, h1, h2, h3⟩ := tryStar_some hg
  have hk : k ≤ kk := by
    by_contra hlt
    rw [h3 k (by omega)] at hnum
    exact absurd hnum (by simp)
  refine ⟨kk, hk, ?_, ?_, h3⟩
  · rw [searchAt, hlab]
    exact h2
  · rw [h1]
    rfl

/-- Witness for the amended C1, at the response
`nota geral de 0 a 10 da minha performance 8 9`. -/
theorem claim1_extractor_uses_last_numeral_witness :
    ∃ kk, 0 ≤ kk ∧
      searchAt (("nota geral de 0 a 10 da minha performance 8 9").data)
        = matchNum ((" 8 9").data.drop kk) ∧
      (matchNum ((" 8 9").data.drop kk)).isSome = true ∧
      ∀ j, kk < j → matchNum ((" 8 9").data.drop j) = none :=
  claim1_extractor_uses_last_numeral _ _ 0 (by rfl) (by rfl)

/-- **C2**: (a) if the label matches somewhere with a digit in its
remainder, extraction succeeds; (b) whatever numeral is extracted, the
stored score is a numeric value in the interval [0, 10]; (c) if no numeral
follows any occurrence of the label, the result is the sentinel `N/A`. -/
theorem claim2_score_range_and_sentinel (t : String) :
    (∀ (i : Nat) (r : List Char) (d : Char),
        matchLit labelChars (t.data.drop i) = some r → d ∈ r → d.isDigit = true →
        ∃ g, nota_match t = some g) ∧
    (∀ g, nota_match t = some g →
        ∃ q : ℚ, notaValue (nota_final t) = some q ∧ 0 ≤ q ∧ q ≤ 10) ∧
    ((∀ (i : Nat) (r : List Char), matchLit labelChars (t.data.drop i) = some r →
        ∀ c ∈ r, c.isDigit = false) →
      nota_final t = Nota.na) := by
  refine ⟨?_, ?_, ?_⟩
  · intro i r d hml hdr hdig
    obtain ⟨k, hk⟩ := matchNum_mem_digit hdr hdig
    have hsa : (searchAt (t.data.drop i)).isSome = true := by
      rw [searchAt, hml]
      exact tryStar_isSome hk
    exact Option.isSome_iff_exists.mp (searchAt_isSome_notaSearch hsa)
  · intro g hg
    obtain ⟨d, hdig, rfl⟩ := notaSearch_single hg
    have hdot : d ≠ '.' := (digit_ne hdig).2.2.2.2.2.2.2.2.2.2.2.2
    have hsplit : splitFrac [d] = ([d], []) := by
      simp [splitFrac, hdot]
    have hfd : pyFloatDigits [d] = ([d], ['0']) := by
      rw [pyFloatDigits, hsplit]
      by_cases hd0 : d = '0'
      · subst hd0
        simp [stripLeadingZeros, stripTrailingZeros]
      · simp [stripLeadingZeros, stripTrailingZeros, hd0]
    have hval : digitsToNat [d] = d.toNat - 48 := by
      simp [digitsToNat]
    have hnf : nota_final t = Nota.val [d] ['0'] := by
      rw [nota_final, hg]
      show Nota.val (pyFloatDigits [d]).1 (pyFloatDigits [d]).2 = Nota.val [d] ['0']
      rw [hfd]
    refine ⟨(digitsToNat [d] : ℚ), ?_, ?_, ?_⟩
    · rw [hnf, notaValue]
      simp [digitsToNat]
    · exact Nat.cast_nonneg _
    · rw [hval]
      have h9 : d.toNat - 48 ≤ 10 := by
        have := digit_ge hdig
        omega
      exact_mod_cast Nat.cast_le.mpr h9
  · intro H
    rw [nota_final, nota_match, notaSearch_none_of_noDigit t.data H]

/-- Witness for C2: a response carrying the label and the numeral `7`
extracts a numeric score in [0, 10]; the empty response (no label at all,
hence no numeral after any label) gets the sentinel. -/
theorem claim2_score_range_and_sentinel_witness :
    (∃ g, nota_match "Nota geral de 0 a 10 da MINHA performance: 7" = some g) ∧
    (∃ q : ℚ, notaValue (nota_final "Nota geral de 0 a 10 da MINHA performance: 7") = some q ∧
      0 ≤ q ∧ q ≤ 10) ∧
    nota_final "" = Nota.na := by
  refine ⟨?_, ?_, ?_⟩
  · exact (claim2_score_range_and_sentinel _).1 0 (": 7").data '7' (by rfl) (by decide)
      (by decide)
  · exact (claim2_score_range_and_sentinel _).2.1 "7" (by rfl)
  · refine (claim2_score_range_and_sentinel "").2.2 ?_
    intro i r hml
    rw [show ("" : String).data = [] from rfl, List.drop_nil] at hml
    exact absurd hml (by rw [show matchLit labelChars [] = none from rfl]; simp)

/-!
## The history digest (`main.py` lines 106-111) and the new record (187-193)

`historico_str` renders the loaded history: one f-string block per record
(`item.get(key, 'N/A')` for the four displayed fields), the blocks joined
with `"\n"`, or a fixed sentence when the list is empty (Python list
truthiness). A record is a dict; `fmtVal` is Python `str()` on the scalar
values that occur as record fields here — the records this program writes
hold only strings and the float-or-`"N/A"` score, so `str()` of a container
is outside the model (no theorem below applies `fmtVal` to one).
-/

/-- Python `str()` of a scalar JSON-derived value, as interpolated into the
f-string: strings verbatim, numbers in their decimal text (`str(8.0)` is
`8.0`, `str(8)` is `8`), `True`/`False`/`None` for the constants. -/
def fmtVal : JVal → String
  | .jstr s => s
  | .jnum neg ip fp => String.mk (serNum neg ip fp)
  | .jbool true => "True"
  | .jbool false => "False"
  | .jnull => "None"
  | .jarr _ => ""
  | .jobj _ => ""

/-- A record of the history, as `json.load` hands it back: a Python dict. -/
abbrev PyDict := List (String × JVal)

/-- Dict lookup, first binding wins (a Python dict has unique keys). -/
def dictGet : PyDict → String → Option JVal
  | [], _ => none
  | (k, v) :: rest, key => if k = key then some v else dictGet rest key

/-- `item.get(key, 'N/A')` as rendered into the f-string. -/
def getNA (item : PyDict) (key : String) : String :=
  match dictGet item key with
  | some v => fmtVal v
  | none => "N/A"

/-- One digest block (line 109): `--- Feedback {i+1} ---` and the four
displayed fields, `feedback_completo` deliberately omitted. -/
def feedbackBlock (i : Nat) (item : PyDict) : String :=
  "--- Feedback " ++ toString (i + 1) ++ " ---\nData: " ++ getNA item "data" ++
    "\nArquivo: " ++ getNA item "nome_arquivo" ++
    "\nNota: " ++ getNA item "nota" ++
    "\nResumo: " ++ getNA item "resumo" ++ "\n"

/-- Lines 108-111: the digest string handed to the prompt. -/
def historico_str (historico_feedbacks : List PyDict) : String :=
  if historico_feedbacks.isEmpty then
    "Nenhum histórico de feedback anterior disponível."
  else
    String.intercalate "\n"
      (historico_feedbacks.enum.map (fun p => feedbackBlock p.1 p.2))

/-- The new evaluation record of lines 187-193, field by field. -/
structure FeedbackEntry where
  data : String
  nome_arquivo : String
  nota : Nota
  resumo : String
  feedback_completo : String

/-- The score as it sits in the dict: the float, or the string `"N/A"`. -/
def notaJVal : Nota → JVal
  | .val ip fp => .jnum false ip fp
  | .na => .jstr "N/A"

/-- The dict literal of lines 187-193, keys in source order. -/
def entryDict (e : FeedbackEntry) : PyDict :=
  [("data", .jstr e.data),
   ("nome_arquivo", .jstr e.nome_arquivo),
   ("nota", notaJVal e.nota),
   ("resumo", .jstr e.resumo),
   ("feedback_completo", .jstr e.feedback_completo)]

/-- Line 191: `resposta_raw[:500] + "..." if len(resposta_raw) > 500 else
resposta_raw` (Python slices strings by code points, as `data` does). -/
def resumo_of (resposta_raw : String) : String :=
  if resposta_raw.length > 500 then String.mk (resposta_raw.data.take 500) ++ "..."
  else resposta_raw

/-- Lines 187-193: the record appended after a successful model call. The
timestamp `datetime.now().strftime(...)` enters as the parameter `now`,
`uploaded_file.name` as `nome_arquivo`. -/
def new_feedback_entry (now nome_arquivo resposta_raw : String) : FeedbackEntry :=
  { data := now
    nome_arquivo := nome_arquivo
    nota := nota_final resposta_raw
    resumo := resumo_of resposta_raw
    feedback_completo := resposta_raw }

/-- Well-formed score: numeric scores carry canonical float digits. -/
def wfNota : Nota → Bool
  | .val ip fp => wfNum ip fp
  | .na => true

def wfEntry (e : FeedbackEntry) : Bool := wfNota e.nota

/-- A well-formed history log: every record's score is well-formed. -/
def wfLog (L : List FeedbackEntry) : Bool := L.all wfEntry

/-- The JSON document a history log denotes: the list of record dicts. -/
def encodeLog (L : List FeedbackEntry) : JVal :=
  .jarr (L.map (fun e => .jobj (entryDict e)))

theorem pyFloatDigits_digit {d : Char} (hdig : d.isDigit = true) :
    pyFloatDigits [d] = ([d], ['0']) := by
  have hdot : d ≠ '.' := (digit_ne hdig).2.2.2.2.2.2.2.2.2.2.2.2
  have hsplit : splitFrac [d] = ([d], []) := by
    simp [splitFrac, hdot]
  rw [pyFloatDigits, hsplit]
  by_cases hd0 : d = '0'
  · subst hd0
    simp [stripLeadingZeros, stripTrailingZeros]
  · simp [stripLeadingZeros, stripTrailingZeros, hd0]

theorem wfNota_nota_final (r : String) : wfNota (nota_final r) = true := by
  cases hnm : nota_match r with
  | none => simp [nota_final, hnm, wfNota]
  | some g =>
      obtain ⟨d, hdig, rfl⟩ := notaSearch_single hnm
      have hnf : nota_final r = Nota.val [d] ['0'] := by
        rw [nota_final, hnm]
        show Nota.val (pyFloatDigits [d]).1 (pyFloatDigits [d]).2 = Nota.val [d] ['0']
        rw [pyFloatDigits_digit hdig]
      rw [hnf]
      show wfNum [d] ['0'] = true
      by_cases hd0 : d = '0'
      · subst hd0
        decide
      · simp [wfNum, noLeadZero, hdig, hd0]

theorem wfArr_append (a b : List JVal) : wfArr (a ++ b) = (wfArr a && wfArr b) := by
  induction a with
  | nil => simp [wfArr]
  | cons x xs ih => simp [wfArr, ih, Bool.and_assoc]

theorem wfJ_entryDict (e : FeedbackEntry) (h : wfEntry e = true) :
    wfJ (JVal.jobj (entryDict e)) = true := by
  have hnota : wfJ (notaJVal e.nota) = true := by
    cases hn : e.nota with
    | val ip fp =>
        rw [wfEntry, hn] at h
        simpa [notaJVal, wfJ, wfNota] using h
    | na => simp [notaJVal, wfJ]
  simp [wfJ, entryDict, wfFields, hnota]
  decide

theorem wfJ_jarr (xs : List JVal) : wfJ (JVal.jarr xs) = wfArr xs := by
  simp [wfJ]

theorem wfArr_cons (x : JVal) (xs : List JVal) : wfArr (x :: xs) = (wfJ x && wfArr xs) := by
  simp [wfArr]

theorem wfJ_encodeLog (L : List FeedbackEntry) (h : wfLog L = true) :
    wfJ (encodeLog L) = true := by
  induction L with
  | nil => simp [encodeLog, wfJ, wfArr]
  | cons e es ih =>
      rw [wfLog, List.all_cons, Bool.and_eq_true] at h
      have h1 := wfJ_entryDict e h.1
      have h2 : wfArr (es.map (fun e => JVal.jobj (entryDict e))) = true := by
        have h3 := ih h.2
        rwa [encodeLog, wfJ_jarr] at h3
      rw [encodeLog, List.map_cons, wfJ_jarr, wfArr_cons, h1, h2]
      rfl

theorem String_eq_of_data {a b : String} (h : a.data = b.data) : a = b :=
  calc a = String.mk a.data := rfl
    _ = String.mk b.data := by rw [h]
    _ = b := rfl

/-!
## Claims C4, C5, C6, C7, C10 (store and digest)
-/

/-- **C4**: for every well-formed history log, saving then loading restores
it exactly; `ensure_ascii=False` writes non-ASCII text verbatim and the
loader reads it back unchanged. -/
theorem claim4_load_save_roundtrip (L : List FeedbackEntry) (h : wfLog L = true) :
    load_feedback_history (some (save_feedback_history (encodeLog L))) = encodeLog L :=
  load_save_wf (encodeLog L) (wfJ_encodeLog L h)

/-- A two-record log with non-ASCII text in several fields, one numeric and
one `N/A` score. -/
def sampleLog : List FeedbackEntry :=
  [{ data := "2024-06-01 10:00:00"
     nome_arquivo := "entrevista_técnica_às_10h.txt"
     nota := Nota.val ['8'] ['5']
     resumo := "Boa comunicação, há espaço para evolução."
     feedback_completo := "Feedback completo: ótima postura.\nNota geral: 8.5" },
   { data := "2024-06-02 09:30:00"
     nome_arquivo := "b.txt"
     nota := Nota.na
     resumo := ""
     feedback_completo := "" }]

/-- Witness for C4 at `sampleLog`. -/
theorem claim4_load_save_roundtrip_witness :
    wfLog sampleLog = true ∧
    load_feedback_history (some (save_feedback_history (encodeLog sampleLog)))
      = encodeLog sampleLog :=
  ⟨by decide, claim4_load_save_roundtrip sampleLog (by decide)⟩

/-- **C5**: loading with no file on disk yields the empty log, and loading a
file whose text does not parse as JSON (the `json.JSONDecodeError` branch of
lines 23-27) also yields the empty log. The loader is modelled as a total
function with no error outcome, matching the code's catch-and-return. -/
theorem claim5_load_missing_malformed_empty :
    load_feedback_history none = JVal.jarr [] ∧
    (∀ s : String, jsonLoadTop s = none → load_feedback_history (some s) = JVal.jarr []) := by
  refine ⟨rfl, fun s h => ?_⟩
  simp [load_feedback_history, h]

/-- Witness for C5 on a file holding plain prose instead of JSON. -/
theorem claim5_load_missing_malformed_empty_witness :
    load_feedback_history (some "isto não é json") = JVal.jarr [] :=
  claim5_load_missing_malformed_empty.2 "isto não é json" (by rfl)

/-- **C6**: the stored summary equals the response when it is within the
500-character bound; past the bound it is the 500-character prefix plus the
`...` marker, of length 500 + 3, and a prefix of `feedback_completo`, which
is stored untruncated. -/
theorem claim6_summary_truncation (s now nome : String) :
    (s.length ≤ 500 → resumo_of s = s) ∧
    (s.length > 500 →
      resumo_of s = String.mk (s.data.take 500) ++ "..." ∧
      (resumo_of s).length = 500 + 3 ∧
      ∃ rest, String.mk (s.data.take 500) ++ rest = s) ∧
    (new_feedback_entry now nome s).resumo = resumo_of s ∧
    (new_feedback_entry now nome s).feedback_completo = s := by
  refine ⟨?_, ?_, rfl, rfl⟩
  · intro h
    rw [resumo_of, if_neg (by omega)]
  · intro h
    have he : resumo_of s = String.mk (s.data.take 500) ++ "..." := by
      rw [resumo_of, if_pos (by omega)]
    refine ⟨he, ?_, ?_⟩
    · rw [he]
      have h2 : (String.mk (s.data.take 500) ++ "...").length
          = (s.data.take 500).length + 3 := by
        show (String.mk (s.data.take 500) ++ "...").data.length = _
        rw [String.data_append]
        simp
      have hl : s.data.length > 500 := h
      rw [h2, List.length_take]
      omega
    · refine ⟨String.mk (s.data.drop 500), ?_⟩
      apply String_eq_of_data
      rw [String.data_append]
      exact List.take_append_drop _ _

/-- A 501-character response, to land in the truncating branch. -/
def longResposta : String := String.mk (List.replicate 501 'a')

set_option maxRecDepth 4000

/-- Witness for C6: a short response kept whole, the long one cut to 503. -/
theorem claim6_summary_truncation_witness :
    resumo_of "ok" = "ok" ∧ (resumo_of longResposta).length = 500 + 3 :=
  ⟨(claim6_summary_truncation "ok" "" "").1 (by decide),
   ((claim6_summary_truncation longResposta "" "").2.1 (by decide)).2.1⟩

set_option maxRecDepth 512

/-- **C7**: the digest of the empty log is the fixed sentence; for a
nonempty log it is the newline-join of exactly one block per record, block
`i` rendering record `i` (same order); each block carries the record's
timestamp, file name, score and summary verbatim, and is independent of the
record's `feedback_completo`, which never appears in the digest. -/
theorem claim7_digest_blocks (L : List FeedbackEntry) :
    (historico_str [] = "Nenhum histórico de feedback anterior disponível.") ∧
    (L ≠ [] →
      historico_str (L.map entryDict)
        = String.intercalate "\n"
            ((L.map entryDict).enum.map (fun p => feedbackBlock p.1 p.2)) ∧
      ((L.map entryDict).enum.map (fun p => feedbackBlock p.1 p.2)).length = L.length) ∧
    (∀ (i : Nat) (e : FeedbackEntry),
      feedbackBlock i (entryDict e)
        = "--- Feedback " ++ toString (i + 1) ++ " ---\nData: " ++ e.data ++
            "\nArquivo: " ++ e.nome_arquivo ++
            "\nNota: " ++ fmtVal (notaJVal e.nota) ++
            "\nResumo: " ++ e.resumo ++ "\n") ∧
    (∀ (i : Nat) (e : FeedbackEntry) (ft : String),
      feedbackBlock i (entryDict e)
        = feedbackBlock i (entryDict { e with feedback_completo := ft })) := by
  refine ⟨rfl, ?_, fun i e => rfl, fun i e ft => rfl⟩
  intro hL
  constructor
  · have hne : (L.map entryDict).isEmpty = false := by
      simp [List.isEmpty_iff, hL]
    rw [historico_str, hne]
    simp
  · simp

/-- A concrete record for the C7 witness. -/
def sampleEntry : FeedbackEntry :=
  { data := "2024-06-01 10:00:00"
    nome_arquivo := "entrevista.txt"
    nota := Nota.val ['8'] ['0']
    resumo := "Resumo."
    feedback_completo := "Feedback completo." }

/-- Witness for C7 at the one-record log `[sampleEntry]`. -/
theorem claim7_digest_blocks_witness :
    historico_str ([sampleEntry].map entryDict)
      = String.intercalate "\n"
          (([sampleEntry].map entryDict).enum.map (fun p => feedbackBlock p.1 p.2)) ∧
    (([sampleEntry].map entryDict).enum.map (fun p => feedbackBlock p.1 p.2)).length = 1 := by
  have h := (claim7_digest_blocks [sampleEntry]).2.1 (by simp)
  exact ⟨h.1, h.2⟩

/-- **C10**: the digest never fails on records with missing keys: the join
of blocks is produced for arbitrary dicts, and a block for a record lacking
any of the four displayed keys equals the block for that record with the
literal string `N/A` installed under that key — `item.get(key, 'N/A')`
substitutes the placeholder instead of raising. -/
theorem claim10_missing_fields_na (items : List PyDict) :
    (items ≠ [] →
      historico_str items
        = String.intercalate "\n" (items.enum.map (fun p => feedbackBlock p.1 p.2))) ∧
    (∀ (i : Nat) (item : PyDict),
      (dictGet item "data" = none →
        feedbackBlock i item = feedbackBlock i (("data", JVal.jstr "N/A") :: item)) ∧
      (dictGet item "nome_arquivo" = none →
        feedbackBlock i item = feedbackBlock i (("nome_arquivo", JVal.jstr "N/A") :: item)) ∧
      (dictGet item "nota" = none →
        feedbackBlock i item = feedbackBlock i (("nota", JVal.jstr "N/A") :: item)) ∧
      (dictGet item "resumo" = none →
        feedbackBlock i item = feedbackBlock i (("resumo", JVal.jstr "N/A") :: item))) := by
  constructor
  · intro hne
    have he : items.isEmpty = false := by
      simp [List.isEmpty_iff, hne]
    rw [historico_str, he]
    rfl
  · intro i item
    refine ⟨fun h => ?_, fun h => ?_, fun h => ?_, fun h => ?_⟩ <;>
      simp [feedbackBlock, getNA, dictGet, fmtVal, h]

/-- Witness for C10 at the log of one record with no keys at all. -/
theorem claim10_missing_fields_na_witness :
    historico_str [([] : PyDict)]
      = String.intercalate "\n" (([([] : PyDict)]).enum.map (fun p => feedbackBlock p.1 p.2)) ∧
    feedbackBlock 0 ([] : PyDict) = feedbackBlock 0 [("data", JVal.jstr "N/A")] ∧
    feedbackBlock 0 ([] : PyDict)
      = "--- Feedback 1 ---\nData: N/A\nArquivo: N/A\nNota: N/A\nResumo: N/A\n" :=
  ⟨(claim10_missing_fields_na [[]]).1 (by simp),
   ((claim10_missing_fields_na [[]]).2 0 []).1 rfl,
   by decide⟩

/-!
## The prompt (`main.py` lines 114-176)

`pergunta` is one f-string: fixed text with `{historico_str}` spliced in at
line 156 and `{transcricao}` at line 174. The fixed text is reproduced
verbatim below in three parts, split at the two interpolation points.
-/

def perguntaParte1 : String :=
  "\n            Você é um avaliador profissional e imparcial de entrevistas de emprego (técnicas e comportamentais). Sua missão é fornecer um feedback detalhado e construtivo **focando exclusivamente na performance do candidato (EU)**, com base em trechos reais da entrevista transcrita abaixo.\n\n            **Instruções Cruciais para a Análise:**\n            * A transcrição pode não ter identificação explícita de quem fala. Sua tarefa é **inferir quem é o candidato (EU)** com base nas perguntas típicas do recrutador e nas respostas que se alinham à uma apresentação pessoal ou profissional.\n            * **Priorize a análise das MINHAS falas.** O feedback deve ser sobre a **MINHA comunicação, postura, clareza e estratégia de respostas**, e não sobre as perguntas do recrutador.\n            * Ao citar trechos, **deixe claro se o trecho é uma pergunta do recrutador ou uma fala MINHA**, mas use-o apenas para contextualizar a **MINHA resposta ou a MINHA performance**.\n            * Se o trecho for longo, cite apenas a parte mais relevante e adicione \"...\" se for truncado.\n            * Certifique-se de que cada um dos 8 tópicos solicitados abaixo seja abordado de forma completa e detalhada, com exemplos.\n\n            Sua resposta DEVE ser estruturada exatamente com os seguintes tópicos numerados, incluindo o número e o nome do tópico em negrito:\n\n            1.  **Nota geral de 0 a 10 da MINHA performance.**\n            2.  **Meus principais acertos (do candidato)**\n            3.  **O que ME prejudicou (erros, falas inseguras, falta de clareza ou foco)**\n            4.  **Sugira formas melhores de EU ME expressar**\n            5.  **O que reorganizar no MEU roteiro de respostas**\n            6.  **Evolução com base na memória de entrevistas anteriores**\n            7.  **Dicas mentais e estratégias para melhorar a segurança e desempenho**\n            8.  **Exemplos práticos de como responder melhor**\n\n            Detalhes para cada tópico:\n\n            **1. Nota geral de 0 a 10 da MINHA performance.**\n                - Forneça uma nota numérica clara.\n\n            **2. Meus principais acertos (do candidato)**\n                - Com trechos específicos da transcrição que comprovem isso (ex: \"Quando o candidato disse '...', demonstrou clareza/confiança/...\").\n\n            **3. O que ME prejudicou (erros, falas inseguras, falta de clareza ou foco)**\n                - Com trechos reais **DAS MINHAS falas** que demonstrem os pontos fracos.\n\n            **4. Sugira formas melhores de EU ME expressar**\n                - Reescreva partes ruins **DAS MINHAS falas** de forma ideal, mostrando como eu poderia ter formulado a resposta.\n\n            **5. O que reorganizar no MEU roteiro de respostas**\n                - Temas que deveriam vir antes, respostas que se alongam sem necessidade etc.\n\n            **6. Evolução com base na memória de entrevistas anteriores**\n                - Use o seguinte histórico de feedbacks para a análise de evolução, regressão ou estagnação em aspectos específicos **DA MINHA performance**:\n                Histórico de Feedbacks Anteriores:\n                \\\"\\\"\\\"\n                "

def perguntaParte2 : String :=
  "\n                \\\"\\\"\\\"\n                - Se o histórico estiver vazio ou não houver dados relevantes, indique isso e ofereça dicas gerais para a próxima.\n\n            **7. Dicas mentais e estratégias para melhorar a segurança e desempenho**\n                - Orientações práticas e acionáveis.\n\n            **8. Exemplos práticos de como responder melhor**\n                - Dê exemplos práticos de como EU poderia responder melhor, com trechos simulados que eu poderia usar no lugar do que foi dito.\n\n            ⚠️ **IMPORTANTE:**\n            -   Seja direto, detalhado e específico.\n            -   Não resuma demais. Justifique com exemplos reais sempre que possível, **priorizando citações das MINHAS falas**.\n            -   **Foço EXCLUSIVAMENTE na MINHA qualidade de comunicação, clareza, postura e estratégia como candidato.**\n            -   Lembre-se: o objetivo é a MINHA evolução constante.\n\n            Transcrição da entrevista:\n            \\\"\\\"\\\"\n            "

def perguntaParte3 : String :=
  "\n            \\\"\\\"\\\"\n            "

/-- Lines 114-176: the prompt, a pure function of the transcript and the
digest (the local variable `historico_str` and `transcricao` of the code). -/
def pergunta (transcricao historico_str : String) : String :=
  perguntaParte1 ++ historico_str ++ perguntaParte2 ++ transcricao ++ perguntaParte3

/-- **C8**: the prompt builder is a function of the transcript, the digest
and the fixed template alone — substituting equal inputs gives the identical
output — and for arbitrary inputs, the empty transcript included, the output
contains both the digest and the transcript as contiguous substrings. -/
theorem claim8_prompt_pure_contains (transcricao hist : String) :
    (∀ t2 h2 : String, t2 = transcricao → h2 = hist →
      pergunta t2 h2 = pergunta transcricao hist) ∧
    hist.data <:+: (pergunta transcricao hist).data ∧
    transcricao.data <:+: (pergunta transcricao hist).data := by
  refine ⟨fun t2 h2 ht hh => by rw [ht, hh], ?_, ?_⟩
  · refine ⟨perguntaParte1.data,
      (perguntaParte2 ++ transcricao ++ perguntaParte3).data, ?_⟩
    simp [pergunta, String.data_append, List.append_assoc]
  · refine ⟨(perguntaParte1 ++ hist ++ perguntaParte2).data, perguntaParte3.data, ?_⟩
    simp [pergunta, String.data_append, List.append_assoc]

/-- Witness for C8 at a short transcript and the empty-history sentence. -/
theorem claim8_prompt_pure_contains_witness :
    pergunta "Olá" "Nenhum histórico de feedback anterior disponível."
      = pergunta "Olá" "Nenhum histórico de feedback anterior disponível." ∧
    ("Olá" : String).data
      <:+: (pergunta "Olá" "Nenhum histórico de feedback anterior disponível.").data :=
  ⟨(claim8_prompt_pure_contains "Olá" "Nenhum histórico de feedback anterior disponível.").1
      "Olá" "Nenhum histórico de feedback anterior disponível." rfl rfl,
   (claim8_prompt_pure_contains "Olá" "Nenhum histórico de feedback anterior disponível.").2.2⟩

/-!
## The evaluation pipeline (`main.py` lines 105-200)

One click of the button runs: load the history, render `historico_str`,
build `pergunta`, call `predict`, extract the score, build the new record,
append it and save. The model call is an outcome oracle
`assistente : String → Except String String` (`.error` = the call raised).
A history whose JSON is not a list of dicts makes `item.get` or `.append`
raise before any save, so it is an error outcome too; every error aborts
before `save_feedback_history` runs, leaving the file as it was. The result
is the file after the click and the outcome.
-/

/-- Python-side type check: the loaded value is usable as a list to
enumerate and append to only when it is a JSON array. -/
def toItems : JVal → Option (List JVal)
  | .jarr items => some items
  | _ => none

/-- All items are dicts, as `item.get` requires. -/
def asDicts : List JVal → Option (List PyDict)
  | [] => some []
  | .jobj fs :: rest =>
      (match asDicts rest with
       | some ds => some (fs :: ds)
       | none => none)
  | _ :: _ => none

/-- Lines 105-200, one evaluation run over the modelled state. -/
def runEvaluation (disk : Option String) (now nome_arquivo transcricao : String)
    (assistente : String → Except String String) :
    Option String × Except String FeedbackEntry :=
  match toItems (load_feedback_history disk) with
  | none => (disk, .error "AttributeError")
  | some items =>
    match asDicts items with
    | none => (disk, .error "AttributeError")
    | some historico_feedbacks =>
      match assistente (pergunta transcricao (historico_str historico_feedbacks)) with
      | .error e => (disk, .error e)
      | .ok resposta_raw =>
        (let entry := new_feedback_entry now nome_arquivo resposta_raw
         (some (save_feedback_history (.jarr (items ++ [.jobj (entryDict entry)]))),
          .ok entry))

/-- **C3**: when the model call fails, the run ends in an error outcome and
the file component is exactly the prior disk state — `save_feedback_history`
is only reached after a successful call, so nothing is persisted. -/
theorem claim3_failed_call_disk_unchanged (disk : Option String)
    (now nome transcricao msg : String)
    (assistente : String → Except String String)
    (hfail : ∀ p, assistente p = Except.error msg) :
    (runEvaluation disk now nome transcricao assistente).1 = disk ∧
    ∀ entry, (runEvaluation disk now nome transcricao assistente).2 ≠ Except.ok entry := by
  have key : ∃ m, runEvaluation disk now nome transcricao assistente
      = (disk, Except.error m) := by
    rw [runEvaluation]
    split
    · exact ⟨"AttributeError", rfl⟩
    · split
      · exact ⟨"AttributeError", rfl⟩
      · split
        · rename_i e heq
          exact ⟨e, rfl⟩
        · rename_i r heq
          rw [hfail] at heq
          exact Except.noConfusion heq
  obtain ⟨m, hm⟩ := key
  rw [hm]
  exact ⟨rfl, fun entry h => Except.noConfusion h⟩

/-- Witness for C3: a transport failure on a malformed one-record disk. -/
theorem claim3_failed_call_disk_unchanged_witness :
    (runEvaluation (some "historico") "2024-06-01 10:00:00" "a.txt" "Olá"
        (fun _ => Except.error "transport failure")).1 = some "historico" ∧
    ∀ entry, (runEvaluation (some "historico") "2024-06-01 10:00:00" "a.txt" "Olá"
        (fun _ => Except.error "transport failure")).2 ≠ Except.ok entry :=
  claim3_failed_call_disk_unchanged (some "historico") "2024-06-01 10:00:00" "a.txt" "Olá"
    "transport failure" (fun _ => Except.error "transport failure") (fun _ => rfl)

/-- **C9**: a successful run appends exactly one record and persists it:
the outcome is one new record whose `nome_arquivo` is the supplied file
name, the file afterwards is the saved prior-items-plus-that-record log
(loading it back yields exactly those items), and its length is the prior
length plus one. -/
theorem claim9_append_one_persist (disk : Option String)
    (now nome transcricao resposta : String)
    (assistente : String → Except String String)
    (items : List JVal) (dicts : List PyDict)
    (hload : load_feedback_history disk = JVal.jarr items)
    (hdicts : asDicts items = some dicts)
    (hwf : wfJ (JVal.jarr items) = true)
    (hok : assistente (pergunta transcricao (historico_str dicts)) = Except.ok resposta) :
    ∃ entry : FeedbackEntry,
      (runEvaluation disk now nome transcricao assistente).2 = Except.ok entry ∧
      entry.nome_arquivo = nome ∧
      (runEvaluation disk now nome transcricao assistente).1
        = some (save_feedback_history (JVal.jarr (items ++ [JVal.jobj (entryDict entry)]))) ∧
      load_feedback_history (runEvaluation disk now nome transcricao assistente).1
        = JVal.jarr (items ++ [JVal.jobj (entryDict entry)]) ∧
      (items ++ [JVal.jobj (entryDict entry)]).length = items.length + 1 := by
  have hrun : runEvaluation disk now nome transcricao assistente
      = (some (save_feedback_history (JVal.jarr (items ++
            [JVal.jobj (entryDict (new_feedback_entry now nome resposta))]))),
         Except.ok (new_feedback_entry now nome resposta)) := by
    rw [runEvaluation]
    split
    · rename_i heq
      rw [hload] at heq
      exact Option.noConfusion heq
    · rename_i items2 heq
      rw [hload] at heq
      rw [show toItems (JVal.jarr items) = some items from rfl] at heq
      injection heq with heq2
      subst heq2
      split
      · rename_i heq3
        rw [hdicts] at heq3
        exact Option.noConfusion heq3
      · rename_i ds heq3
        rw [hdicts] at heq3
        injection heq3 with heq4
        subst heq4
        split
        · rename_i e heq5
          rw [hok] at heq5
          exact Except.noConfusion heq5
        · rename_i r heq5
          rw [hok] at heq5
          injection heq5 with heq6
          subst heq6
          rfl
  refine ⟨new_feedback_entry now nome resposta, ?_, rfl, ?_, ?_, ?_⟩
  · rw [hrun]
  · rw [hrun]
  · rw [hrun]
    apply load_save_wf
    rw [wfJ_jarr, wfArr_append]
    have h1 : wfArr items = true := by rwa [wfJ_jarr] at hwf
    have h2 : wfArr [JVal.jobj (entryDict (new_feedback_entry now nome resposta))] = true := by
      rw [wfArr_cons,
        wfJ_entryDict (new_feedback_entry now nome resposta) (wfNota_nota_final resposta)]
      rfl
    rw [h1, h2]
    rfl
  · simp

/-- A model response carrying a score, for the C9 witness. -/
def respostaExemplo : String := "Nota geral de 0 a 10 da MINHA performance: 9"

/-- Witness for C9: starting from no file on disk (the empty history), one
click persists a log of length 1 whose record carries the supplied name. -/
theorem claim9_append_one_persist_witness :
    ∃ entry : FeedbackEntry,
      (runEvaluation none "2024-06-01 10:00:00" "a.txt" "Hello world"
          (fun _ => Except.ok respostaExemplo)).2 = Except.ok entry ∧
      entry.nome_arquivo = "a.txt" ∧
      (runEvaluation none "2024-06-01 10:00:00" "a.txt" "Hello world"
          (fun _ => Except.ok respostaExemplo)).1
        = some (save_feedback_history (JVal.jarr ([] ++ [JVal.jobj (entryDict entry)]))) ∧
      load_feedback_history (runEvaluation none "2024-06-01 10:00:00" "a.txt" "Hello world"
          (fun _ => Except.ok respostaExemplo)).1
        = JVal.jarr ([] ++ [JVal.jobj (entryDict entry)]) ∧
      (([] : List JVal) ++ [JVal.jobj (entryDict entry)]).length
        = ([] : List JVal).length + 1 :=
  claim9_append_one_persist none "2024-06-01 10:00:00" "a.txt" "Hello world" respostaExemplo
    (fun _ => Except.ok respostaExemplo) [] [] rfl rfl (by decide) rfl
